import Mathlib

/-!
Verification of the connection core of the yb/rpc subsystem
(`src/yb/rpc/connection.cc`).

The development shallowly embeds the per-connection state machine of a
client-direction YB connection (call-id assignment, the pending-call map
`awaiting_response_`, the outbound transfer queue, the write-readiness
watcher, per-call timeout handling, response handling and `Shutdown`),
together with the server-direction incoming-call handlers of the three
protocol subclasses (`YBConnection`, `RedisConnection`, `CQLConnection`).

Connection-level behaviour is embedded from `connection.cc`.  Code of the
repository that is not available (`connection.h`'s `GetNextCallId`,
`transfer.cc`'s callback firing discipline, the reactor glue) is modelled
from the specification; each such definition carries a doc comment saying
so.

Ghost fields (`edges`, `tedges`, `assignedIds`, `shutdownStatuses`,
`serializeFailures`, `warnings`, `numCalls`, `numTransfers`) record the
observable events the specification's claims talk about: terminal edges
delivered to outbound calls, transfer-callback edges, assigned call ids,
statuses used for tear-down, and warning-level log lines.
-/

namespace YbRpc

/-- Status values, mirroring `yb::Status` as used in `connection.cc`:
an OK value plus the error kinds the connection code constructs or
propagates. -/
inductive Status where
  | OK : Status
  | NetworkError (msg : String) : Status
  | RuntimeError (msg detail : String) : Status
  | Corruption (msg : String) : Status
  | Aborted (msg : String) : Status
  | ServiceUnavailable (msg : String) : Status
deriving DecidableEq, Repr

/-- Predicate `Status::ok()`. -/
def Status.isOk : Status → Bool
  | .OK => true
  | _ => false

/-- Terminal and non-terminal state transitions that `connection.cc`
invokes on an `OutboundCall` object: `SetQueued`, `SetSent`,
`SetTimedOut`, `SetResponse`, `SetFailed`. -/
inductive CallEdge where
  | queuedE : CallEdge
  | sentE : CallEdge
  | timedOutE : CallEdge
  | respondedE : CallEdge
  | failedE (s : Status) : CallEdge
deriving DecidableEq, Repr

/-- A call edge is terminal when it ends the call: response delivered,
timed out, or failed. `SetQueued` and `SetSent` are not terminal. -/
def CallEdge.isTerminal : CallEdge → Bool
  | .queuedE => false
  | .sentE => false
  | .timedOutE => true
  | .respondedE => true
  | .failedE _ => true

/-- The two callback edges of an outbound transfer:
`NotifyTransferFinished` and `NotifyTransferAborted(status)`. -/
inductive TEdge where
  | finishedE : TEdge
  | abortedE (s : Status) : TEdge
deriving DecidableEq, Repr

/-- Structure `Connection::CallAwaitingResponse` (a "car"): the pending-map entry
holding the handle to the outbound call (cleared on timeout, leaving a
tombstone) and its one-shot timeout timer.  Calls are identified by
their creation index (the ghost call-object identity). -/
structure CAR where
  call : Option Nat
  timerArmed : Bool
deriving DecidableEq, Repr

/-- An entry of `outbound_transfers_`: a transfer identity plus the index
of the outbound call whose `CallTransferCallbacks` it carries. -/
structure OutTransfer where
  tid : Nat
  callIdx : Nat
deriving DecidableEq, Repr

/-- Result of one `OutboundTransfer::SendBuffer` attempt inside
`Connection::WriteHandler`: an I/O error status, a partial send, or
completion of the transfer. -/
inductive SendOutcome where
  | sendError (s : Status) : SendOutcome
  | sendPartial : SendOutcome
  | sendComplete : SendOutcome
deriving DecidableEq, Repr

/-- The mutable state of a client-direction connection, from the member
variables of `Connection` used by `connection.cc`, plus ghost logs. -/
structure ConnState where
  nextCallId : Nat
  negotiationComplete : Bool
  isEpollRegistered : Bool
  readActive : Bool
  writeActive : Bool
  shutdownStatus : Status
  awaiting : List (Nat × CAR)
  outbound : List OutTransfer
  numCalls : Nat
  numTransfers : Nat
  assignedIds : List Nat
  edges : List (Nat × CallEdge)
  tedges : List (Nat × TEdge)
  shutdownStatuses : List Status
  serializeFailures : List Status
  warnings : Nat
deriving DecidableEq, Repr

/-- The state established by `Connection::Connection`: `next_call_id_(1)`,
`is_epoll_registered_(false)`, `negotiation_complete_(false)`, no watchers,
default-OK `shutdown_status_`, empty containers. -/
def initConn : ConnState :=
  { nextCallId := 1
    negotiationComplete := false
    isEpollRegistered := false
    readActive := false
    writeActive := false
    shutdownStatus := Status.OK
    awaiting := []
    outbound := []
    numCalls := 0
    numTransfers := 0
    assignedIds := []
    edges := []
    tedges := []
    shutdownStatuses := []
    serializeFailures := []
    warnings := 0 }

/-- Association-list lookup, the `find` of the pending map keyed by
call id. -/
def lookupA {α : Type} : List (Nat × α) → Nat → Option α
  | [], _ => none
  | (k, v) :: rest, key => if k = key then some v else lookupA rest key

/-- Association-list insert-or-assign: `map[key] = v`.  Replaces the
value at the first occurrence of the key, appends when absent. -/
def setA {α : Type} : List (Nat × α) → Nat → α → List (Nat × α)
  | [], key, v => [(key, v)]
  | (k, w) :: rest, key, v =>
    if k = key then (key, v) :: rest else (k, w) :: setA rest key v

/-- Association-list erase of the first occurrence of a key, the erase
performed by `EraseKeyReturnValuePtr`. -/
def eraseA {α : Type} : List (Nat × α) → Nat → List (Nat × α)
  | [], _ => []
  | (k, w) :: rest, key =>
    if k = key then rest else (k, w) :: eraseA rest key

/-- Number of terminal call edges delivered to call `i`. -/
def termCount (edges : List (Nat × CallEdge)) (i : Nat) : Nat :=
  edges.countP (fun p => p.1 == i && p.2.isTerminal)

/-- Modelled from the spec: `OutboundCall::IsFinished` — a call is
finished exactly when one of its terminal edges (response, timed out,
failed) has fired. -/
def hasTerminal (edges : List (Nat × CallEdge)) (i : Nat) : Bool :=
  edges.any (fun p => p.1 == i && p.2.isTerminal)

/-- Number of callback edges fired for transfer `tid`. -/
def tcount (tedges : List (Nat × TEdge)) (tid : Nat) : Nat :=
  tedges.countP (fun p => p.1 == tid)

/-- Embeds `Connection::Shutdown(status)` from `connection.cc`: record the
shutdown status; `SetFailed(status)` every pending call whose handle is
still live and destroy the entries (clearing the map); pop and delete
every queued outbound transfer (the delete of an unsent transfer fires
`NotifyTransferAborted` with the shutdown status, modelled from the
spec); stop both I/O watchers; clear the epoll-registered flag; close
the socket. -/
def Connection.Shutdown (st : ConnState) (status : Status) : ConnState :=
  { st with
    shutdownStatus := status
    edges := st.edges ++
      st.awaiting.filterMap
        (fun p => p.2.call.map (fun i => (i, CallEdge.failedE status)))
    awaiting := []
    tedges := st.tedges ++
      st.outbound.map (fun t => (t.tid, TEdge.abortedE status))
    outbound := []
    readActive := false
    writeActive := false
    isEpollRegistered := false
    shutdownStatuses := st.shutdownStatuses ++ [status] }

/-- Modelled from the spec: `ReactorThread::DestroyConnection` (reactor
code not in the sources) performs terminal tear-down of the connection
with the given status, i.e. runs `Connection::Shutdown`. -/
def destroyConnection (st : ConnState) (status : Status) : ConnState :=
  Connection.Shutdown st status

/-- Embeds `Connection::HandleOutboundCallTimeout` from `connection.cc`: the
one-shot timer of the entry fires (and disarms); the call is marked
timed out (`SetTimedOut`) and the handle on the entry is cleared, but
the entry is left in the map to absorb a late response. -/
def Connection.HandleOutboundCallTimeout (st : ConnState) (cid : Nat) : ConnState :=
  match lookupA st.awaiting cid with
  | none => st
  | some car =>
    match car.call with
    | none => st
    | some i =>
      { st with
        awaiting := setA st.awaiting cid { call := none, timerArmed := false }
        edges := st.edges ++ [(i, CallEdge.timedOutE)] }

/-- Embeds `Connection::HandleCallResponse` from `connection.cc`, after the
response frame parsed (parse is `CHECK_OK`): erase the pending entry for
the response's call id.  No entry: log a warning and ignore.  Entry with
cleared handle: the call already timed out, drop silently (the entry is
still erased and its timer stopped by the car destructor).  Live entry:
deliver the response (`SetResponse`). -/
def Connection.HandleCallResponse (st : ConnState) (cid : Nat) : ConnState :=
  match lookupA st.awaiting cid with
  | none => { st with warnings := st.warnings + 1 }
  | some car =>
    match car.call with
    | none => { st with awaiting := eraseA st.awaiting cid }
    | some i =>
      { st with
        awaiting := eraseA st.awaiting cid
        edges := st.edges ++ [(i, CallEdge.respondedE)] }

/-- Embeds `Connection::QueueOutbound(transfer)` from `connection.cc`: when the
connection is already shut down, abort the transfer with the shutdown
status instead of queueing it (`OutboundTransfer::Abort` fires
`NotifyTransferAborted`, modelled from the spec); otherwise push it on
`outbound_transfers_` and, when negotiation is complete and the write
watcher is not active, start the write watcher. -/
def Connection.QueueOutbound (st : ConnState) (t : OutTransfer) : ConnState :=
  if !st.shutdownStatus.isOk then
    { st with tedges := st.tedges ++ [(t.tid, TEdge.abortedE st.shutdownStatus)] }
  else
    let st1 := { st with outbound := st.outbound ++ [t] }
    if st1.negotiationComplete && !st1.writeActive then
      { st1 with writeActive := true }
    else
      st1

/-- Embeds `Connection::QueueOutboundCall(call)` from `connection.cc`.  A fresh
call object is identified by its creation index.  When already shut
down, `SetFailed(shutdown_status_)` and return.  Otherwise assign the
next call id (`GetNextCallId`, modelled from the spec: call ids are
monotonically increasing per connection, starting at 1), serialize the
request — on failure `SetFailed` with the serialization status and
return — then `SetQueued`, create the pending entry (timer armed iff the
call has an initialized timeout), install it in `awaiting_response_`
keyed by the call id, and queue the outbound transfer carrying
`CallTransferCallbacks`. -/
def Connection.QueueOutboundCall (st : ConnState) (serialize : Status)
    (hasTimeout : Bool) : ConnState :=
  let i := st.numCalls
  let st0 := { st with numCalls := i + 1 }
  if !st0.shutdownStatus.isOk then
    { st0 with edges := st0.edges ++ [(i, CallEdge.failedE st0.shutdownStatus)] }
  else
    let callId := st0.nextCallId
    let st1 := { st0 with
      nextCallId := callId + 1
      assignedIds := st0.assignedIds ++ [callId] }
    if !serialize.isOk then
      { st1 with
        edges := st1.edges ++ [(i, CallEdge.failedE serialize)]
        serializeFailures := st1.serializeFailures ++ [serialize] }
    else
      let st2 := { st1 with edges := st1.edges ++ [(i, CallEdge.queuedE)] }
      let tid := st2.numTransfers
      let st3 := { st2 with
        awaiting := setA st2.awaiting callId { call := some i, timerArmed := hasTimeout }
        numTransfers := tid + 1 }
      Connection.QueueOutbound st3 { tid := tid, callIdx := i }

/-- Embeds `CallTransferCallbacks::NotifyTransferFinished` from
`connection.cc`: when the call is already finished (it timed out while
the transfer was still queued) do nothing; otherwise `SetSent`. -/
def callTransferFinished (st : ConnState) (i : Nat) : ConnState :=
  if hasTerminal st.edges i then st
  else { st with edges := st.edges ++ [(i, CallEdge.sentE)] }

/-- The drain loop of `Connection::WriteHandler`: send the front
transfer; an I/O error destroys the connection with the send status; a
partial send returns leaving the watcher armed; on completion the
transfer fires `NotifyTransferFinished` (completion callback, modelled
from the spec) — for a call transfer this is
`CallTransferCallbacks::NotifyTransferFinished` — and is popped and
deleted; when the queue drains empty the write watcher is stopped.  The
outcome list supplies the socket's behaviour for the successive
`SendBuffer` attempts; an exhausted list behaves like a partial send. -/
def Connection.sendLoop (st : ConnState) : List SendOutcome → ConnState
  | [] =>
    match st.outbound with
    | [] => { st with writeActive := false }
    | _ :: _ => st
  | o :: outs =>
    match st.outbound with
    | [] => { st with writeActive := false }
    | t :: rest =>
      match o with
      | .sendError s => destroyConnection st s
      | .sendPartial => st
      | .sendComplete =>
        let st1 := callTransferFinished
          { st with
            outbound := rest
            tedges := st.tedges ++ [(t.tid, TEdge.finishedE)] } t.callIdx
        Connection.sendLoop st1 outs

/-- Embeds `Connection::WriteHandler` from `connection.cc` (`EV_ERROR` is the
separate event `writeEvError`): with an empty queue, log the
ready-to-write-but-nothing-to-write warning and stop the watcher;
otherwise drain the queue. -/
def Connection.WriteHandler (st : ConnState) (outs : List SendOutcome) : ConnState :=
  match st.outbound with
  | [] => { st with warnings := st.warnings + 1, writeActive := false }
  | _ :: _ => Connection.sendLoop st outs

/-- Embeds `Connection::MarkNegotiationComplete` from `connection.cc`. -/
def Connection.MarkNegotiationComplete (st : ConnState) : ConnState :=
  { st with negotiationComplete := true }

/-- Embeds `Connection::EpollRegister` from `connection.cc`, for a
client-direction connection: set up both watchers, start the write
watcher only when `direction_ == CLIENT && negotiation_complete_`,
start the read watcher, set the epoll-registered flag. -/
def Connection.EpollRegister (st : ConnState) : ConnState :=
  { st with
    writeActive := st.writeActive || st.negotiationComplete
    readActive := true
    isEpollRegistered := true }

/-- The environment events driving a client connection on its reactor
thread.  `negotiationDone` is the successful
`CompleteConnectionNegotiation` reactor task; the reactor glue (not in
the sources) is modelled from the spec: it marks negotiation complete
and performs the epoll registration.  `recvError` is a failing
`ReceiveBuffer` in `ReadHandler` (`quiet` for the ESHUTDOWN peer-close
case); `callResponse` is a completed, successfully parsed response
frame; `reactorShutdown` is tear-down initiated by the reactor. -/
inductive Event where
  | queueOutboundCall (serialize : Status) (hasTimeout : Bool) : Event
  | timerFire (cid : Nat) : Event
  | callResponse (cid : Nat) : Event
  | readEvError : Event
  | recvError (s : Status) (quiet : Bool) : Event
  | writeReady (outs : List SendOutcome) : Event
  | writeEvError : Event
  | negotiationDone : Event
  | reactorShutdown (s : Status) : Event
deriving DecidableEq, Repr

/-- One step of the connection under an event, combining the
`connection.cc` handlers. -/
def step (st : ConnState) : Event → ConnState
  | .queueOutboundCall ser ht => Connection.QueueOutboundCall st ser ht
  | .timerFire cid => Connection.HandleOutboundCallTimeout st cid
  | .callResponse cid => Connection.HandleCallResponse st cid
  | .readEvError =>
    destroyConnection st (Status.NetworkError "ReadHandler encountered an error")
  | .recvError s quiet =>
    destroyConnection
      (if quiet then st else { st with warnings := st.warnings + 1 }) s
  | .writeReady outs => Connection.WriteHandler st outs
  | .writeEvError =>
    destroyConnection st (Status.NetworkError "writeHandler encountered an error")
  | .negotiationDone => Connection.EpollRegister (Connection.MarkNegotiationComplete st)
  | .reactorShutdown s => Connection.Shutdown st s

/-- Which events the environment can deliver in a state: I/O readiness
only while the corresponding watcher is active, a timer fire only while
that entry's timer is armed, negotiation completion once, reactor
tear-down only with a non-OK status. -/
def enabled (st : ConnState) : Event → Bool
  | .queueOutboundCall _ _ => true
  | .timerFire cid =>
    match lookupA st.awaiting cid with
    | some car => car.timerArmed
    | none => false
  | .callResponse _ => st.readActive
  | .readEvError => st.readActive
  | .recvError _ _ => st.readActive
  | .writeReady _ => st.writeActive
  | .writeEvError => st.writeActive
  | .negotiationDone =>
    !st.negotiationComplete && !st.isEpollRegistered && st.shutdownStatus.isOk
  | .reactorShutdown s => !s.isOk

/-- Run a sequence of events from a state. -/
def runFrom (st : ConnState) : List Event → ConnState
  | [] => st
  | e :: es => runFrom (step st e) es

/-- A sequence of events is legal from a state when each event is
enabled in the state it is delivered in. -/
def legalFrom (st : ConnState) : List Event → Bool
  | [] => true
  | e :: es => enabled st e && legalFrom (step st e) es

/-- Observable outcome of a server `HandleIncomingCall`: whether the
connection was destroyed (and with what status), which call id (if any)
was handed to the messenger via `QueueInboundCall`, and whether a
warning was logged. -/
structure InOutcome where
  destroyed : Option Status
  dispatched : Option Nat
  warned : Bool
deriving DecidableEq, Repr

/-- Embeds `YBConnection::HandleIncomingCall` from `connection.cc`.  The state
is `calls_being_handled_` as the list of call ids being handled; the
input is the result of `YBInboundCall::ParseFrom` (the parsed call id on
success).  A parse failure logs a warning and destroys the connection
with the parse status.  `InsertIfNotPresent` failing — the call id is
already in the map — logs a warning and destroys the connection with a
RuntimeError about a duplicate call id; otherwise the id is inserted and
the call is dispatched. -/
def YBConnection.HandleIncomingCall (handled : List Nat)
    (parse : Except Status Nat) : List Nat × InOutcome :=
  match parse with
  | .error s => (handled, { destroyed := some s, dispatched := none, warned := true })
  | .ok cid =>
    if cid ∈ handled then
      (handled,
        { destroyed := some (Status.RuntimeError "Received duplicate call id" (toString cid))
          dispatched := none
          warned := true })
    else
      (handled ++ [cid], { destroyed := none, dispatched := some cid, warned := false })

/-- A Redis inbound transfer: whether the frame is complete
(`TransferFinished`), the result of `RedisInboundCall::ParseFrom` on its
contents, and the trailing excess bytes already parsed into the next
transfer (`ExcessData`, modelled from the spec: trailing bytes of a
finished inbound transfer seed the next inbound transfer). -/
inductive RTransfer where
  | mk (finished : Bool) (parse : Except Status Nat) (excess : Option RTransfer) : RTransfer

/-- Accessor `TransferFinished` of a Redis inbound transfer. -/
def RTransfer.finished : RTransfer → Bool
  | .mk f _ _ => f

/-- Parse result of a Redis inbound transfer. -/
def RTransfer.parse : RTransfer → Except Status Nat
  | .mk _ p _ => p

/-- Accessor `ExcessData` of a Redis inbound transfer. -/
def RTransfer.excess : RTransfer → Option RTransfer
  | .mk _ _ e => e

/-- State of a server-direction `RedisConnection`: the `processing_call_`
flag and the current inbound transfer `inbound_`. -/
structure RedisState where
  processingCall : Bool
  inbound : Option RTransfer

/-- Embeds `RedisConnection::HandleIncomingCall` from `connection.cc`: a parse
failure logs a warning and destroys the connection with the parse
status; on success `processing_call_` is set and the call is dispatched. -/
def RedisConnection.HandleIncomingCall (st : RedisState)
    (parse : Except Status Nat) : RedisState × InOutcome :=
  match parse with
  | .error s => (st, { destroyed := some s, dispatched := none, warned := true })
  | .ok cid =>
    ({ st with processingCall := true },
      { destroyed := none, dispatched := some cid, warned := false })

/-- Embeds `RedisConnection::HandleFinishedTransfer` from `connection.cc`: if a
call is being processed, leave the finished transfer parked and return;
otherwise take the transfer's excess data as the next transfer, handle
the incoming call on the transfer, and seed `inbound_` with the excess. -/
def RedisConnection.HandleFinishedTransfer (st : RedisState) : RedisState × InOutcome :=
  if st.processingCall then
    (st, { destroyed := none, dispatched := none, warned := false })
  else
    match st.inbound with
    | none => (st, { destroyed := none, dispatched := none, warned := false })
    | some t =>
      let next := t.excess
      let (st1, out) := RedisConnection.HandleIncomingCall st t.parse
      ({ st1 with inbound := next }, out)

/-- Embeds `RedisConnection::FinishedHandlingACall` from `connection.cc`: clear
`processing_call_` and, if the next inbound transfer has already
finished, re-drive `HandleFinishedTransfer`. -/
def RedisConnection.FinishedHandlingACall (st : RedisState) : RedisState × InOutcome :=
  let st1 := { st with processingCall := false }
  match st.inbound with
  | some t =>
    if t.finished then RedisConnection.HandleFinishedTransfer st1
    else (st1, { destroyed := none, dispatched := none, warned := false })
  | none => (st1, { destroyed := none, dispatched := none, warned := false })

/-- Embeds `CQLConnection::HandleIncomingCall` from `connection.cc`: a parse
failure logs a warning and returns — the connection is not destroyed
(the code carries a TODO asking whether it should shut down); on
success the call is dispatched. -/
def CQLConnection.HandleIncomingCall (parse : Except Status Nat) : InOutcome :=
  match parse with
  | .error _ => { destroyed := none, dispatched := none, warned := true }
  | .ok cid => { destroyed := none, dispatched := some cid, warned := false }

/-- A sample legal event trace of a client connection: negotiation
completes, two calls are enqueued with timers, both request transfers
drain to the wire, call 1 receives its response, call 2 times out and
its late response is absorbed, then the reactor tears the connection
down. -/
def sampleTrace : List Event :=
  [Event.negotiationDone,
    Event.queueOutboundCall Status.OK true,
    Event.queueOutboundCall Status.OK true,
    Event.writeReady [SendOutcome.sendComplete, SendOutcome.sendComplete],
    Event.callResponse 1,
    Event.timerFire 2,
    Event.callResponse 2,
    Event.reactorShutdown (Status.NetworkError "conn closed")]

/-- The inductive invariant of the client-connection model.  It ties the
ghost logs to the live state: assigned call ids are exactly `1..next-1`;
map keys are below the next call id and duplicate-free; live call
handles point at distinct calls below the creation counter that have no
terminal edge yet; every call has at most one terminal edge and every
created call either has one or is still live in the map; failed edges
carry a shutdown or serialization-failure status; queued transfers are
distinct, callback-free and below the creation counter; every transfer
has at most one callback edge and every created transfer either has one
or is still queued; aborted edges carry a shutdown status; after
shutdown the map and queue are empty and the status was recorded; and a
non-empty queue implies the write watcher is active or negotiation is
incomplete. -/
structure Inv (st : ConnState) : Prop where
  ids_range : st.assignedIds = List.range' 1 (st.nextCallId - 1)
  next_pos : 1 ≤ st.nextCallId
  keys_lt : ∀ p ∈ st.awaiting, p.1 < st.nextCallId
  keys_nodup : (st.awaiting.map Prod.fst).Nodup
  live_lt : ∀ p ∈ st.awaiting, ∀ i, p.2.call = some i → i < st.numCalls
  live_noterm : ∀ p ∈ st.awaiting, ∀ i, p.2.call = some i → termCount st.edges i = 0
  live_nodup : (st.awaiting.filterMap (fun p => p.2.call)).Nodup
  edges_lt : ∀ p ∈ st.edges, p.1 < st.numCalls
  term_le : ∀ i, termCount st.edges i ≤ 1
  term_complete : ∀ i, i < st.numCalls →
    termCount st.edges i = 1 ∨ i ∈ st.awaiting.filterMap (fun p => p.2.call)
  failed_src : ∀ p ∈ st.edges, ∀ s, p.2 = CallEdge.failedE s →
    s ∈ st.shutdownStatuses ∨ s ∈ st.serializeFailures
  tids_nodup : (st.outbound.map OutTransfer.tid).Nodup
  tids_lt : ∀ t ∈ st.outbound, t.tid < st.numTransfers
  tids_noedge : ∀ t ∈ st.outbound, tcount st.tedges t.tid = 0
  tcall_lt : ∀ t ∈ st.outbound, t.callIdx < st.numCalls
  tedges_lt : ∀ p ∈ st.tedges, p.1 < st.numTransfers
  tc_le : ∀ tid, tcount st.tedges tid ≤ 1
  tc_complete : ∀ tid, tid < st.numTransfers →
    tcount st.tedges tid = 1 ∨ tid ∈ st.outbound.map OutTransfer.tid
  aborted_src : ∀ p ∈ st.tedges, ∀ s, p.2 = TEdge.abortedE s → s ∈ st.shutdownStatuses
  shut_mem : st.shutdownStatus.isOk = false → st.shutdownStatus ∈ st.shutdownStatuses
  shut_awaiting : st.shutdownStatus.isOk = false → st.awaiting = []
  shut_outbound : st.shutdownStatus.isOk = false → st.outbound = []
  wqueue : st.outbound ≠ [] → st.writeActive = true ∨ st.negotiationComplete = false

/-! ### Association-list lemmas -/

theorem lookupA_eq_none_of_not_mem {α : Type} (l : List (Nat × α)) (k : Nat)
    (h : k ∉ l.map Prod.fst) : lookupA l k = none := by
  induction l with
  | nil => rfl
  | cons p rest ih =>
    obtain ⟨a, b⟩ := p
    simp only [List.map_cons, List.mem_cons] at h
    push_neg at h
    simpa [lookupA, Ne.symm h.1] using ih h.2

theorem lookupA_setA_self {α : Type} (l : List (Nat × α)) (k : Nat) (v : α) :
    lookupA (setA l k v) k = some v := by
  induction l with
  | nil => simp [setA, lookupA]
  | cons p rest ih =>
    obtain ⟨a, b⟩ := p
    by_cases h : a = k
    · simp [setA, h, lookupA]
    · simp [setA, h, lookupA, ih]

theorem lookupA_eraseA_self {α : Type} (l : List (Nat × α)) (k : Nat)
    (h : (l.map Prod.fst).Nodup) : lookupA (eraseA l k) k = none := by
  induction l with
  | nil => rfl
  | cons p rest ih =>
    obtain ⟨a, b⟩ := p
    simp only [List.map_cons, List.nodup_cons] at h
    by_cases hk : a = k
    · subst hk
      simpa [eraseA] using lookupA_eq_none_of_not_mem rest a h.1
    · simpa [eraseA, hk, lookupA] using ih h.2

theorem setA_not_mem {α : Type} (l : List (Nat × α)) (k : Nat) (v : α)
    (h : ∀ p ∈ l, p.1 ≠ k) : setA l k v = l ++ [(k, v)] := by
  induction l with
  | nil => rfl
  | cons p rest ih =>
    obtain ⟨a, b⟩ := p
    have ha : a ≠ k := h (a, b) (List.mem_cons_self _ _)
    simp only [setA, if_neg ha, List.cons_append, List.cons.injEq, true_and]
    exact ih (fun q hq => h q (List.mem_cons_of_mem _ hq))

theorem setA_split {α : Type} (l : List (Nat × α)) (k : Nat) (v car : α)
    (h : lookupA l k = some car) :
    ∃ l₁ l₂, l = l₁ ++ (k, car) :: l₂ ∧ setA l k v = l₁ ++ (k, v) :: l₂ ∧
      ∀ p ∈ l₁, p.1 ≠ k := by
  induction l with
  | nil => simp [lookupA] at h
  | cons p rest ih =>
    obtain ⟨a, b⟩ := p
    by_cases hk : a = k
    · subst hk
      have hb : b = car := by simpa [lookupA] using h
      subst hb
      exact ⟨[], rest, by simp [setA]⟩
    · simp only [lookupA, if_neg hk] at h
      obtain ⟨l₁, l₂, he, hs, hn⟩ := ih h
      refine ⟨(a, b) :: l₁, l₂, by simp [he], by simp [setA, hk, hs], ?_⟩
      intro q hq
      rcases List.mem_cons.mp hq with h1 | h1
      · rw [h1]; exact hk
      · exact hn q h1

theorem eraseA_split {α : Type} (l : List (Nat × α)) (k : Nat) (car : α)
    (h : lookupA l k = some car) :
    ∃ l₁ l₂, l = l₁ ++ (k, car) :: l₂ ∧ eraseA l k = l₁ ++ l₂ ∧
      ∀ p ∈ l₁, p.1 ≠ k := by
  induction l with
  | nil => simp [lookupA] at h
  | cons p rest ih =>
    obtain ⟨a, b⟩ := p
    by_cases hk : a = k
    · subst hk
      have hb : b = car := by simpa [lookupA] using h
      subst hb
      exact ⟨[], rest, by simp [eraseA]⟩
    · simp only [lookupA, if_neg hk] at h
      obtain ⟨l₁, l₂, he, hs, hn⟩ := ih h
      refine ⟨(a, b) :: l₁, l₂, by simp [he], by simp [eraseA, hk, hs], ?_⟩
      intro q hq
      rcases List.mem_cons.mp hq with h1 | h1
      · rw [h1]; exact hk
      · exact hn q h1

/-! ### Counting lemmas for call and transfer edges -/

theorem termCount_append (l₁ l₂ : List (Nat × CallEdge)) (i : Nat) :
    termCount (l₁ ++ l₂) i = termCount l₁ i + termCount l₂ i :=
  List.countP_append _ _ _

theorem termCount_singleton (j i : Nat) (e : CallEdge) :
    termCount [(j, e)] i = if j = i ∧ e.isTerminal = true then 1 else 0 := by
  simp only [termCount, List.countP_cons, List.countP_nil]
  by_cases h1 : j = i <;> by_cases h2 : e.isTerminal <;> simp [h1, h2]

theorem termCount_eq_zero (edges : List (Nat × CallEdge)) (i : Nat)
    (h : ∀ p ∈ edges, p.1 ≠ i) : termCount edges i = 0 := by
  apply List.countP_eq_zero.mpr
  intro p hp
  simp only [Bool.and_eq_true, beq_iff_eq, not_and]
  exact fun hc => absurd hc (h p hp)

theorem termCount_failbatch (w : List (Nat × CAR)) (s : Status) (i : Nat) :
    termCount (w.filterMap (fun p => p.2.call.map (fun j => (j, CallEdge.failedE s)))) i
      = (w.filterMap (fun p => p.2.call)).count i := by
  rw [termCount, ← List.map_filterMap, List.countP_map, List.count_eq_countP]
  congr 1
  funext j
  simp [CallEdge.isTerminal]

theorem tcount_append (l₁ l₂ : List (Nat × TEdge)) (tid : Nat) :
    tcount (l₁ ++ l₂) tid = tcount l₁ tid + tcount l₂ tid :=
  List.countP_append _ _ _

theorem tcount_singleton (j tid : Nat) (e : TEdge) :
    tcount [(j, e)] tid = if j = tid then 1 else 0 := by
  simp only [tcount, List.countP_cons, List.countP_nil]
  by_cases h1 : j = tid <;> simp [h1]

theorem tcount_eq_zero (tedges : List (Nat × TEdge)) (tid : Nat)
    (h : ∀ p ∈ tedges, p.1 ≠ tid) : tcount tedges tid = 0 := by
  apply List.countP_eq_zero.mpr
  intro p hp
  simp only [beq_iff_eq]
  exact h p hp

theorem tcount_abortbatch (q : List OutTransfer) (s : Status) (tid : Nat) :
    tcount (q.map (fun t => (t.tid, TEdge.abortedE s))) tid
      = (q.map OutTransfer.tid).count tid := by
  rw [tcount, List.countP_map, List.count_eq_countP, List.countP_map]
  congr 1

theorem termCount_snoc_nonterm (E : List (Nat × CallEdge)) (j i : Nat) (e : CallEdge)
    (he : e.isTerminal = false) : termCount (E ++ [(j, e)]) i = termCount E i := by
  rw [termCount_append, termCount_singleton]
  simp [he]

theorem termCount_snoc_term (E : List (Nat × CallEdge)) (j i : Nat) (e : CallEdge)
    (he : e.isTerminal = true) :
    termCount (E ++ [(j, e)]) i = termCount E i + if j = i then 1 else 0 := by
  rw [termCount_append, termCount_singleton]
  by_cases hj : j = i <;> simp [hj, he]

theorem tcount_snoc (T : List (Nat × TEdge)) (j tid : Nat) (e : TEdge) :
    tcount (T ++ [(j, e)]) tid = tcount T tid + if j = tid then 1 else 0 := by
  rw [tcount_append, tcount_singleton]

theorem hasTerminal_iff (edges : List (Nat × CallEdge)) (i : Nat) :
    hasTerminal edges i = true ↔ 0 < termCount edges i := by
  rw [hasTerminal, termCount, List.countP_pos_iff, List.any_eq_true]

/-! ### Transport helpers for the invariant -/

theorem inv_warnings {st : ConnState} (h : Inv st) (w : Nat) :
    Inv { st with warnings := w } :=
  ⟨h.ids_range, h.next_pos, h.keys_lt, h.keys_nodup, h.live_lt, h.live_noterm,
    h.live_nodup, h.edges_lt, h.term_le, h.term_complete, h.failed_src, h.tids_nodup,
    h.tids_lt, h.tids_noedge, h.tcall_lt, h.tedges_lt, h.tc_le, h.tc_complete,
    h.aborted_src, h.shut_mem, h.shut_awaiting, h.shut_outbound, h.wqueue⟩

theorem inv_stop_write {st : ConnState} (h : Inv st) (hq : st.outbound = []) :
    Inv { st with writeActive := false } :=
  ⟨h.ids_range, h.next_pos, h.keys_lt, h.keys_nodup, h.live_lt, h.live_noterm,
    h.live_nodup, h.edges_lt, h.term_le, h.term_complete, h.failed_src, h.tids_nodup,
    h.tids_lt, h.tids_noedge, h.tcall_lt, h.tedges_lt, h.tc_le, h.tc_complete,
    h.aborted_src, h.shut_mem, h.shut_awaiting, h.shut_outbound,
    fun hne => absurd hq hne⟩

theorem inv_warn_stop {st : ConnState} (h : Inv st) (hq : st.outbound = []) :
    Inv { st with warnings := st.warnings + 1, writeActive := false } :=
  ⟨h.ids_range, h.next_pos, h.keys_lt, h.keys_nodup, h.live_lt, h.live_noterm,
    h.live_nodup, h.edges_lt, h.term_le, h.term_complete, h.failed_src, h.tids_nodup,
    h.tids_lt, h.tids_noedge, h.tcall_lt, h.tedges_lt, h.tc_le, h.tc_complete,
    h.aborted_src, h.shut_mem, h.shut_awaiting, h.shut_outbound,
    fun hne => absurd hq hne⟩

/-! ### Preservation of the invariant by each handler -/

theorem inv_Shutdown {st : ConnState} (h : Inv st) (s : Status) :
    Inv (Connection.Shutdown st s) := by
  refine
    { ids_range := h.ids_range
      next_pos := h.next_pos
      keys_lt := by intro p hp; simp [Connection.Shutdown] at hp
      keys_nodup := by simp [Connection.Shutdown]
      live_lt := by intro p hp; simp [Connection.Shutdown] at hp
      live_noterm := by intro p hp; simp [Connection.Shutdown] at hp
      live_nodup := by simp [Connection.Shutdown]
      edges_lt := ?_
      term_le := ?_
      term_complete := ?_
      failed_src := ?_
      tids_nodup := by simp [Connection.Shutdown]
      tids_lt := by intro t ht; simp [Connection.Shutdown] at ht
      tids_noedge := by intro t ht; simp [Connection.Shutdown] at ht
      tcall_lt := by intro t ht; simp [Connection.Shutdown] at ht
      tedges_lt := ?_
      tc_le := ?_
      tc_complete := ?_
      aborted_src := ?_
      shut_mem := by intro _; simp [Connection.Shutdown]
      shut_awaiting := by intro _; simp [Connection.Shutdown]
      shut_outbound := by intro _; simp [Connection.Shutdown]
      wqueue := by intro hne; simp [Connection.Shutdown] at hne }
  · intro p hp
    simp only [Connection.Shutdown, List.mem_append] at hp ⊢
    rcases hp with hp | hp
    · exact h.edges_lt p hp
    · obtain ⟨q, hq, hqe⟩ := List.mem_filterMap.mp hp
      cases hc : q.2.call with
      | none => rw [hc] at hqe; simp at hqe
      | some j =>
        rw [hc] at hqe
        simp only [Option.map_some', Option.some.injEq] at hqe
        rw [← hqe]
        exact h.live_lt q hq j hc
  · intro i
    simp only [Connection.Shutdown]
    rw [termCount_append, termCount_failbatch]
    by_cases hm : i ∈ st.awaiting.filterMap (fun p => p.2.call)
    · have h0 : termCount st.edges i = 0 := by
        obtain ⟨q, hq, hqc⟩ := List.mem_filterMap.mp hm
        exact h.live_noterm q hq i hqc
      rw [h0, List.count_eq_one_of_mem h.live_nodup hm]
    · rw [List.count_eq_zero.mpr hm]
      simpa using h.term_le i
  · intro i hi
    simp only [Connection.Shutdown] at hi ⊢
    left
    rw [termCount_append, termCount_failbatch]
    rcases h.term_complete i hi with h1 | h1
    · have hnm : i ∉ st.awaiting.filterMap (fun p => p.2.call) := by
        intro hm
        obtain ⟨q, hq, hqc⟩ := List.mem_filterMap.mp hm
        rw [h.live_noterm q hq i hqc] at h1
        exact absurd h1 (by decide)
      rw [h1, List.count_eq_zero.mpr hnm]
    · obtain ⟨q, hq, hqc⟩ := List.mem_filterMap.mp h1
      rw [h.live_noterm q hq i hqc, List.count_eq_one_of_mem h.live_nodup h1]
  · intro p hp s' hs'
    simp only [Connection.Shutdown, List.mem_append] at hp ⊢
    rcases hp with hp | hp
    · rcases h.failed_src p hp s' hs' with h1 | h1
      · exact Or.inl (Or.inl h1)
      · exact Or.inr h1
    · obtain ⟨q, hq, hqe⟩ := List.mem_filterMap.mp hp
      cases hc : q.2.call with
      | none => rw [hc] at hqe; simp at hqe
      | some j =>
        rw [hc] at hqe
        simp only [Option.map_some', Option.some.injEq] at hqe
        rw [← hqe] at hs'
        simp only [CallEdge.failedE.injEq] at hs'
        exact Or.inl (Or.inr (by simp [hs']))
  · intro p hp
    simp only [Connection.Shutdown, List.mem_append] at hp ⊢
    rcases hp with hp | hp
    · exact h.tedges_lt p hp
    · obtain ⟨t, ht, hte⟩ := List.mem_map.mp hp
      rw [← hte]
      exact h.tids_lt t ht
  · intro tid
    simp only [Connection.Shutdown]
    rw [tcount_append, tcount_abortbatch]
    by_cases hm : tid ∈ st.outbound.map OutTransfer.tid
    · have h0 : tcount st.tedges tid = 0 := by
        obtain ⟨t, ht, hte⟩ := List.mem_map.mp hm
        rw [← hte]
        exact h.tids_noedge t ht
      rw [h0, List.count_eq_one_of_mem h.tids_nodup hm]
    · rw [List.count_eq_zero.mpr hm]
      simpa using h.tc_le tid
  · intro tid htid
    simp only [Connection.Shutdown] at htid ⊢
    left
    rw [tcount_append, tcount_abortbatch]
    rcases h.tc_complete tid htid with h1 | h1
    · have hnm : tid ∉ st.outbound.map OutTransfer.tid := by
        intro hm
        obtain ⟨t, ht, hte⟩ := List.mem_map.mp hm
        rw [← hte] at h1
        rw [h.tids_noedge t ht] at h1
        exact absurd h1 (by decide)
      rw [h1, List.count_eq_zero.mpr hnm]
    · obtain ⟨t, ht, hte⟩ := List.mem_map.mp h1
      have h0 : tcount st.tedges tid = 0 := by
        rw [← hte]
        exact h.tids_noedge t ht
      rw [h0, List.count_eq_one_of_mem h.tids_nodup h1]
  · intro p hp s' hs'
    simp only [Connection.Shutdown, List.mem_append] at hp ⊢
    rcases hp with hp | hp
    · exact Or.inl (h.aborted_src p hp s' hs')
    · obtain ⟨t, ht, hte⟩ := List.mem_map.mp hp
      rw [← hte] at hs'
      simp only [TEdge.abortedE.injEq] at hs'
      exact Or.inr (by simp [hs'])

theorem nodup_snoc_of_lt (l : List Nat) (c : Nat) (hn : l.Nodup)
    (hlt : ∀ x ∈ l, x < c) : (l ++ [c]).Nodup := by
  rw [List.nodup_append]
  refine ⟨hn, List.nodup_singleton c, ?_⟩
  intro x hx hx2
  rw [List.mem_singleton] at hx2
  subst hx2
  exact lt_irrefl x (hlt x hx)

theorem inv_push_core {st : ConnState} (h : Inv st) (ci : Nat) (hci : ci < st.numCalls)
    (hs : st.shutdownStatus.isOk = true) (wa : Bool)
    (hwa : wa = true ∨ st.negotiationComplete = false) :
    Inv { st with
      numTransfers := st.numTransfers + 1
      outbound := st.outbound ++ [{ tid := st.numTransfers, callIdx := ci }]
      writeActive := wa } := by
  refine
    { ids_range := h.ids_range
      next_pos := h.next_pos
      keys_lt := h.keys_lt
      keys_nodup := h.keys_nodup
      live_lt := h.live_lt
      live_noterm := h.live_noterm
      live_nodup := h.live_nodup
      edges_lt := h.edges_lt
      term_le := h.term_le
      term_complete := h.term_complete
      failed_src := h.failed_src
      tids_nodup := ?_
      tids_lt := ?_
      tids_noedge := ?_
      tcall_lt := ?_
      tedges_lt := ?_
      tc_le := h.tc_le
      tc_complete := ?_
      aborted_src := h.aborted_src
      shut_mem := fun hf => absurd (hs.symm.trans hf) (by decide)
      shut_awaiting := fun hf => absurd (hs.symm.trans hf) (by decide)
      shut_outbound := fun hf => absurd (hs.symm.trans hf) (by decide)
      wqueue := fun _ => hwa }
  · simp only [List.map_append, List.map_cons, List.map_nil]
    exact nodup_snoc_of_lt _ _ h.tids_nodup (fun x hx => by
      obtain ⟨u, hu, hue⟩ := List.mem_map.mp hx
      exact hue ▸ h.tids_lt u hu)
  · intro t htm
    rcases List.mem_append.mp htm with h1 | h1
    · exact Nat.lt_succ_of_lt (h.tids_lt t h1)
    · rw [List.mem_singleton] at h1
      rw [h1]
      exact Nat.lt_succ_self _
  · intro t htm
    rcases List.mem_append.mp htm with h1 | h1
    · exact h.tids_noedge t h1
    · rw [List.mem_singleton] at h1
      rw [h1]
      exact tcount_eq_zero _ _ (fun p hp => Nat.ne_of_lt (h.tedges_lt p hp))
  · intro t htm
    rcases List.mem_append.mp htm with h1 | h1
    · exact h.tcall_lt t h1
    · rw [List.mem_singleton] at h1
      rw [h1]
      exact hci
  · intro p hp
    exact Nat.lt_succ_of_lt (h.tedges_lt p hp)
  · intro tid htid
    rcases Nat.lt_succ_iff_lt_or_eq.mp htid with h1 | h1
    · rcases h.tc_complete tid h1 with h2 | h2
      · exact Or.inl h2
      · exact Or.inr (by simp only [List.map_append]; exact List.mem_append_left _ h2)
    · subst h1
      exact Or.inr (by simp [List.map_append])

theorem inv_QueueOutbound_fresh {st : ConnState} (h : Inv st) (ci : Nat)
    (hci : ci < st.numCalls) :
    Inv (Connection.QueueOutbound { st with numTransfers := st.numTransfers + 1 }
          { tid := st.numTransfers, callIdx := ci }) := by
  cases hs : st.shutdownStatus.isOk with
  | false =>
    have hq : st.outbound = [] := h.shut_outbound hs
    have hred : Connection.QueueOutbound { st with numTransfers := st.numTransfers + 1 }
          { tid := st.numTransfers, callIdx := ci }
        = { st with
            numTransfers := st.numTransfers + 1
            tedges := st.tedges ++
              [(st.numTransfers, TEdge.abortedE st.shutdownStatus)] } := by
      simp [Connection.QueueOutbound, hs]
    rw [hred]
    refine
      { ids_range := h.ids_range
        next_pos := h.next_pos
        keys_lt := h.keys_lt
        keys_nodup := h.keys_nodup
        live_lt := h.live_lt
        live_noterm := h.live_noterm
        live_nodup := h.live_nodup
        edges_lt := h.edges_lt
        term_le := h.term_le
        term_complete := h.term_complete
        failed_src := h.failed_src
        tids_nodup := h.tids_nodup
        tids_lt := fun t htm => Nat.lt_succ_of_lt (h.tids_lt t htm)
        tids_noedge := ?_
        tcall_lt := h.tcall_lt
        tedges_lt := ?_
        tc_le := ?_
        tc_complete := ?_
        aborted_src := ?_
        shut_mem := fun _ => h.shut_mem hs
        shut_awaiting := fun _ => h.shut_awaiting hs
        shut_outbound := fun _ => hq
        wqueue := fun hne => absurd hq hne }
    · intro t htm
      rw [hq] at htm
      exact absurd htm (List.not_mem_nil t)
    · intro p hp
      rcases List.mem_append.mp hp with h1 | h1
      · exact Nat.lt_succ_of_lt (h.tedges_lt p h1)
      · rw [List.mem_singleton] at h1
        rw [h1]
        exact Nat.lt_succ_self _
    · intro tid
      rw [tcount_append, tcount_singleton]
      by_cases he : st.numTransfers = tid
      · subst he
        rw [tcount_eq_zero _ _ (fun p hp => Nat.ne_of_lt (h.tedges_lt p hp))]
        simp
      · rw [if_neg he]
        simpa using h.tc_le tid
    · intro tid htid
      left
      rw [tcount_append, tcount_singleton]
      rcases Nat.lt_succ_iff_lt_or_eq.mp htid with h1 | h1
      · rcases h.tc_complete tid h1 with h2 | h2
        · rw [h2, if_neg (Nat.ne_of_lt (h1 : tid < st.numTransfers)).symm]
        · rw [List.map_eq_nil_iff.mpr hq] at h2
          exact absurd h2 (List.not_mem_nil tid)
      · subst h1
        rw [tcount_eq_zero _ _ (fun p hp => Nat.ne_of_lt (h.tedges_lt p hp)), if_pos rfl]
    · intro p hp s' hs'
      rcases List.mem_append.mp hp with h1 | h1
      · exact h.aborted_src p h1 s' hs'
      · rw [List.mem_singleton] at h1
        rw [h1] at hs'
        simp only [TEdge.abortedE.injEq] at hs'
        rw [← hs']
        exact h.shut_mem hs
  | true =>
    by_cases hw : (st.negotiationComplete && !st.writeActive) = true
    · have hred : Connection.QueueOutbound { st with numTransfers := st.numTransfers + 1 }
            { tid := st.numTransfers, callIdx := ci }
          = { st with
              numTransfers := st.numTransfers + 1
              outbound := st.outbound ++ [{ tid := st.numTransfers, callIdx := ci }]
              writeActive := true } := by
        simp only [Connection.QueueOutbound, hs]
        simp [hw]
      rw [hred]
      exact inv_push_core h ci hci hs true (Or.inl rfl)
    · have hred : Connection.QueueOutbound { st with numTransfers := st.numTransfers + 1 }
            { tid := st.numTransfers, callIdx := ci }
          = { st with
              numTransfers := st.numTransfers + 1
              outbound := st.outbound ++ [{ tid := st.numTransfers, callIdx := ci }]
              writeActive := st.writeActive } := by
        simp only [Connection.QueueOutbound, hs]
        simp [hw]
      rw [hred]
      refine inv_push_core h ci hci hs st.writeActive ?_
      rcases Bool.not_eq_true _ ▸ hw with hww
      cases hgc : st.negotiationComplete with
      | false => exact Or.inr rfl
      | true =>
        cases hwact : st.writeActive with
        | true => exact Or.inl rfl
        | false =>
          rw [hgc, hwact] at hw
          exact absurd rfl hw

theorem inv_HandleOutboundCallTimeout {st : ConnState} (h : Inv st) (cid : Nat) :
    Inv (Connection.HandleOutboundCallTimeout st cid) := by
  cases hl : lookupA st.awaiting cid with
  | none =>
    simp only [Connection.HandleOutboundCallTimeout, hl]
    exact h
  | some car =>
    cases hc : car.call with
    | none =>
      simp only [Connection.HandleOutboundCallTimeout, hl, hc]
      exact h
    | some i =>
      obtain ⟨l₁, l₂, heq, hset, hne⟩ :=
        setA_split st.awaiting cid { call := none, timerArmed := false } car hl
      simp only [Connection.HandleOutboundCallTimeout, hl, hc]
      rw [hset]
      have hmem : (cid, car) ∈ st.awaiting := by
        rw [heq]
        exact List.mem_append_right _ (List.mem_cons_self _ _)
      have hilt : i < st.numCalls := h.live_lt _ hmem i hc
      have hterm0 : termCount st.edges i = 0 := h.live_noterm _ hmem i hc
      have hLeq : st.awaiting.filterMap (fun p => p.2.call)
          = l₁.filterMap (fun p => p.2.call) ++ i :: l₂.filterMap (fun p => p.2.call) := by
        rw [heq]
        simp [List.filterMap_append, hc]
      have hLnd := h.live_nodup
      rw [hLeq, List.nodup_middle, List.nodup_cons] at hLnd
      have hLeq' : (l₁ ++ ((cid, { call := none, timerArmed := false }) : Nat × CAR) :: l₂).filterMap
            (fun p => p.2.call)
          = l₁.filterMap (fun p => p.2.call) ++ l₂.filterMap (fun p => p.2.call) := by
        simp [List.filterMap_append]
      have hsub : ∀ p : Nat × CAR,
          p ∈ l₁ ++ ((cid, { call := none, timerArmed := false }) : Nat × CAR) :: l₂ →
          p = (cid, { call := none, timerArmed := false }) ∨ p ∈ st.awaiting := by
        intro p hp
        rcases List.mem_append.mp hp with h1 | h1
        · exact Or.inr (by rw [heq]; exact List.mem_append_left _ h1)
        · rcases List.mem_cons.mp h1 with h2 | h2
          · exact Or.inl h2
          · exact Or.inr (by
              rw [heq]
              exact List.mem_append_right _ (List.mem_cons_of_mem _ h2))
      refine
        { ids_range := h.ids_range
          next_pos := h.next_pos
          keys_lt := ?_
          keys_nodup := ?_
          live_lt := ?_
          live_noterm := ?_
          live_nodup := ?_
          edges_lt := ?_
          term_le := ?_
          term_complete := ?_
          failed_src := ?_
          tids_nodup := h.tids_nodup
          tids_lt := h.tids_lt
          tids_noedge := h.tids_noedge
          tcall_lt := h.tcall_lt
          tedges_lt := h.tedges_lt
          tc_le := h.tc_le
          tc_complete := h.tc_complete
          aborted_src := h.aborted_src
          shut_mem := fun hf => h.shut_mem hf
          shut_awaiting := ?_
          shut_outbound := fun hf => h.shut_outbound hf
          wqueue := fun hq => h.wqueue hq }
      · intro p hp
        rcases hsub p hp with h1 | h1
        · rw [h1]
          show cid < st.nextCallId
          exact h.keys_lt (cid, car) hmem
        · exact h.keys_lt p h1
      · have : (l₁ ++ ((cid, { call := none, timerArmed := false }) : Nat × CAR) :: l₂).map Prod.fst
            = st.awaiting.map Prod.fst := by
          rw [heq]
          simp
        rw [this]
        exact h.keys_nodup
      · intro p hp j hcall
        rcases hsub p hp with h1 | h1
        · rw [h1] at hcall
          exact absurd hcall (by simp)
        · exact h.live_lt p h1 j hcall
      · intro p hp j hcall
        have hjmem : j ∈ l₁.filterMap (fun p => p.2.call)
            ++ l₂.filterMap (fun p => p.2.call) := by
          rw [← hLeq']
          exact List.mem_filterMap.mpr ⟨p, hp, hcall⟩
        have hji : j ≠ i := fun hcontra => hLnd.1 (hcontra ▸ hjmem)
        rw [termCount_snoc_term _ _ _ _ (by rfl : CallEdge.timedOutE.isTerminal = true),
          if_neg (fun hc2 => hji hc2.symm)]
        rcases hsub p hp with h1 | h1
        · rw [h1] at hcall
          exact absurd hcall (by simp)
        · simpa using h.live_noterm p h1 j hcall
      · rw [hLeq']
        exact hLnd.2
      · intro p hp
        rcases List.mem_append.mp hp with h1 | h1
        · exact h.edges_lt p h1
        · rw [List.mem_singleton] at h1
          rw [h1]
          exact hilt
      · intro j
        rw [termCount_snoc_term _ _ _ _ (by rfl : CallEdge.timedOutE.isTerminal = true)]
        by_cases hj : i = j
        · subst hj
          rw [hterm0, if_pos rfl]
        · rw [if_neg hj]
          simpa using h.term_le j
      · intro j hj
        rw [termCount_snoc_term _ _ _ _ (by rfl : CallEdge.timedOutE.isTerminal = true)]
        by_cases hij : i = j
        · subst hij
          left
          rw [hterm0, if_pos rfl]
        · rw [if_neg hij]
          rcases h.term_complete j hj with h1 | h1
          · left
            rw [h1]
          · right
            rw [hLeq] at h1
            rw [hLeq']
            rcases List.mem_append.mp h1 with h2 | h2
            · exact List.mem_append_left _ h2
            · rcases List.mem_cons.mp h2 with h3 | h3
              · exact absurd h3.symm hij
              · exact List.mem_append_right _ h3
      · intro p hp s' hs'
        rcases List.mem_append.mp hp with h1 | h1
        · exact h.failed_src p h1 s' hs'
        · rw [List.mem_singleton] at h1
          rw [h1] at hs'
          exact absurd hs' (by simp)
      · intro hf
        have := h.shut_awaiting hf
        rw [this] at heq
        exact absurd heq.symm (by simp)

theorem inv_HandleCallResponse {st : ConnState} (h : Inv st) (cid : Nat) :
    Inv (Connection.HandleCallResponse st cid) := by
  cases hl : lookupA st.awaiting cid with
  | none =>
    simp only [Connection.HandleCallResponse, hl]
    exact inv_warnings h _
  | some car =>
    obtain ⟨l₁, l₂, heq, hers, hne⟩ := eraseA_split st.awaiting cid car hl
    have hmem : (cid, car) ∈ st.awaiting := by
      rw [heq]
      exact List.mem_append_right _ (List.mem_cons_self _ _)
    have hsub : ∀ p : Nat × CAR, p ∈ l₁ ++ l₂ → p ∈ st.awaiting := by
      intro p hp
      rcases List.mem_append.mp hp with h1 | h1
      · rw [heq]
        exact List.mem_append_left _ h1
      · rw [heq]
        exact List.mem_append_right _ (List.mem_cons_of_mem _ h1)
    have hkeysub : (l₁ ++ l₂).map Prod.fst |>.Sublist (st.awaiting.map Prod.fst) := by
      rw [heq]
      exact List.Sublist.map _ (List.Sublist.append_left (List.sublist_cons_self _ _) l₁)
    cases hc : car.call with
    | none =>
      simp only [Connection.HandleCallResponse, hl, hc]
      rw [hers]
      have hLeq : st.awaiting.filterMap (fun p => p.2.call)
          = (l₁ ++ l₂).filterMap (fun p => p.2.call) := by
        rw [heq]
        simp [List.filterMap_append, hc]
      refine
        { ids_range := h.ids_range
          next_pos := h.next_pos
          keys_lt := fun p hp => h.keys_lt p (hsub p hp)
          keys_nodup := List.Nodup.sublist hkeysub h.keys_nodup
          live_lt := fun p hp => h.live_lt p (hsub p hp)
          live_noterm := fun p hp => h.live_noterm p (hsub p hp)
          live_nodup := by rw [← hLeq]; exact h.live_nodup
          edges_lt := h.edges_lt
          term_le := h.term_le
          term_complete := ?_
          failed_src := h.failed_src
          tids_nodup := h.tids_nodup
          tids_lt := h.tids_lt
          tids_noedge := h.tids_noedge
          tcall_lt := h.tcall_lt
          tedges_lt := h.tedges_lt
          tc_le := h.tc_le
          tc_complete := h.tc_complete
          aborted_src := h.aborted_src
          shut_mem := fun hf => h.shut_mem hf
          shut_awaiting := ?_
          shut_outbound := fun hf => h.shut_outbound hf
          wqueue := fun hq => h.wqueue hq }
      · intro j hj
        rcases h.term_complete j hj with h1 | h1
        · exact Or.inl h1
        · right
          rw [← hLeq]
          exact h1
      · intro hf
        have := h.shut_awaiting hf
        rw [this] at heq
        exact absurd heq.symm (by simp)
    | some i =>
      simp only [Connection.HandleCallResponse, hl, hc]
      rw [hers]
      have hilt : i < st.numCalls := h.live_lt _ hmem i hc
      have hterm0 : termCount st.edges i = 0 := h.live_noterm _ hmem i hc
      have hLeq : st.awaiting.filterMap (fun p => p.2.call)
          = l₁.filterMap (fun p => p.2.call) ++ i :: l₂.filterMap (fun p => p.2.call) := by
        rw [heq]
        simp [List.filterMap_append, hc]
      have hLnd := h.live_nodup
      rw [hLeq, List.nodup_middle, List.nodup_cons] at hLnd
      have hLeq' : (l₁ ++ l₂).filterMap (fun p => p.2.call)
          = l₁.filterMap (fun p => p.2.call) ++ l₂.filterMap (fun p => p.2.call) := by
        simp [List.filterMap_append]
      refine
        { ids_range := h.ids_range
          next_pos := h.next_pos
          keys_lt := fun p hp => h.keys_lt p (hsub p hp)
          keys_nodup := List.Nodup.sublist hkeysub h.keys_nodup
          live_lt := fun p hp => h.live_lt p (hsub p hp)
          live_noterm := ?_
          live_nodup := by rw [hLeq']; exact hLnd.2
          edges_lt := ?_
          term_le := ?_
          term_complete := ?_
          failed_src := ?_
          tids_nodup := h.tids_nodup
          tids_lt := h.tids_lt
          tids_noedge := h.tids_noedge
          tcall_lt := h.tcall_lt
          tedges_lt := h.tedges_lt
          tc_le := h.tc_le
          tc_complete := h.tc_complete
          aborted_src := h.aborted_src
          shut_mem := fun hf => h.shut_mem hf
          shut_awaiting := ?_
          shut_outbound := fun hf => h.shut_outbound hf
          wqueue := fun hq => h.wqueue hq }
      · intro p hp j hcall
        have hjmem : j ∈ l₁.filterMap (fun p => p.2.call)
            ++ l₂.filterMap (fun p => p.2.call) := by
          rw [← hLeq']
          exact List.mem_filterMap.mpr ⟨p, hp, hcall⟩
        have hji : j ≠ i := fun hcontra => hLnd.1 (hcontra ▸ hjmem)
        rw [termCount_snoc_term _ _ _ _ (by rfl : CallEdge.respondedE.isTerminal = true),
          if_neg (fun hc2 => hji hc2.symm)]
        simpa using h.live_noterm p (hsub p hp) j hcall
      · intro p hp
        rcases List.mem_append.mp hp with h1 | h1
        · exact h.edges_lt p h1
        · rw [List.mem_singleton] at h1
          rw [h1]
          exact hilt
      · intro j
        rw [termCount_snoc_term _ _ _ _ (by rfl : CallEdge.respondedE.isTerminal = true)]
        by_cases hj : i = j
        · subst hj
          rw [hterm0, if_pos rfl]
        · rw [if_neg hj]
          simpa using h.term_le j
      · intro j hj
        rw [termCount_snoc_term _ _ _ _ (by rfl : CallEdge.respondedE.isTerminal = true)]
        by_cases hij : i = j
        · subst hij
          left
          rw [hterm0, if_pos rfl]
        · rw [if_neg hij]
          rcases h.term_complete j hj with h1 | h1
          · left
            rw [h1]
          · right
            rw [hLeq] at h1
            rw [hLeq']
            rcases List.mem_append.mp h1 with h2 | h2
            · exact List.mem_append_left _ h2
            · rcases List.mem_cons.mp h2 with h3 | h3
              · exact absurd h3.symm hij
              · exact List.mem_append_right _ h3
      · intro p hp s' hs'
        rcases List.mem_append.mp hp with h1 | h1
        · exact h.failed_src p h1 s' hs'
        · rw [List.mem_singleton] at h1
          rw [h1] at hs'
          exact absurd hs' (by simp)
      · intro hf
        have := h.shut_awaiting hf
        rw [this] at heq
        exact absurd heq.symm (by simp)

theorem inv_callTransferFinished {st : ConnState} (h : Inv st) (i : Nat)
    (hi : i < st.numCalls) : Inv (callTransferFinished st i) := by
  unfold callTransferFinished
  by_cases hterm : hasTerminal st.edges i = true
  · rw [if_pos hterm]
    exact h
  · rw [if_neg hterm]
    refine
      { ids_range := h.ids_range
        next_pos := h.next_pos
        keys_lt := h.keys_lt
        keys_nodup := h.keys_nodup
        live_lt := h.live_lt
        live_noterm := ?_
        live_nodup := h.live_nodup
        edges_lt := ?_
        term_le := ?_
        term_complete := ?_
        failed_src := ?_
        tids_nodup := h.tids_nodup
        tids_lt := h.tids_lt
        tids_noedge := h.tids_noedge
        tcall_lt := h.tcall_lt
        tedges_lt := h.tedges_lt
        tc_le := h.tc_le
        tc_complete := h.tc_complete
        aborted_src := h.aborted_src
        shut_mem := fun hf => h.shut_mem hf
        shut_awaiting := fun hf => h.shut_awaiting hf
        shut_outbound := fun hf => h.shut_outbound hf
        wqueue := fun hq => h.wqueue hq }
    · intro p hp j hcall
      rw [termCount_snoc_nonterm _ _ _ _ (by rfl : CallEdge.sentE.isTerminal = false)]
      exact h.live_noterm p hp j hcall
    · intro p hp
      rcases List.mem_append.mp hp with h1 | h1
      · exact h.edges_lt p h1
      · rw [List.mem_singleton] at h1
        rw [h1]
        exact hi
    · intro j
      rw [termCount_snoc_nonterm _ _ _ _ (by rfl : CallEdge.sentE.isTerminal = false)]
      exact h.term_le j
    · intro j hj
      rw [termCount_snoc_nonterm _ _ _ _ (by rfl : CallEdge.sentE.isTerminal = false)]
      exact h.term_complete j hj
    · intro p hp s' hs'
      rcases List.mem_append.mp hp with h1 | h1
      · exact h.failed_src p h1 s' hs'
      · rw [List.mem_singleton] at h1
        rw [h1] at hs'
        exact absurd hs' (by simp)

theorem inv_popComplete {st : ConnState} (h : Inv st) (t : OutTransfer)
    (rest : List OutTransfer) (hq : st.outbound = t :: rest) :
    Inv { st with
      outbound := rest
      tedges := st.tedges ++ [(t.tid, TEdge.finishedE)] } := by
  have hmem : t ∈ st.outbound := by
    rw [hq]
    exact List.mem_cons_self _ _
  have hnd := h.tids_nodup
  rw [hq, List.map_cons, List.nodup_cons] at hnd
  refine
    { ids_range := h.ids_range
      next_pos := h.next_pos
      keys_lt := h.keys_lt
      keys_nodup := h.keys_nodup
      live_lt := h.live_lt
      live_noterm := h.live_noterm
      live_nodup := h.live_nodup
      edges_lt := h.edges_lt
      term_le := h.term_le
      term_complete := h.term_complete
      failed_src := h.failed_src
      tids_nodup := hnd.2
      tids_lt := ?_
      tids_noedge := ?_
      tcall_lt := ?_
      tedges_lt := ?_
      tc_le := ?_
      tc_complete := ?_
      aborted_src := ?_
      shut_mem := fun hf => h.shut_mem hf
      shut_awaiting := fun hf => h.shut_awaiting hf
      shut_outbound := ?_
      wqueue := ?_ }
  · intro u hu
    exact h.tids_lt u (by rw [hq]; exact List.mem_cons_of_mem _ hu)
  · intro u hu
    have humem : u ∈ st.outbound := by
      rw [hq]
      exact List.mem_cons_of_mem _ hu
    have hut : t.tid ≠ u.tid := by
      intro hcontra
      exact hnd.1 (hcontra ▸ List.mem_map_of_mem OutTransfer.tid hu)
    rw [tcount_snoc, if_neg hut]
    simpa using h.tids_noedge u humem
  · intro u hu
    exact h.tcall_lt u (by rw [hq]; exact List.mem_cons_of_mem _ hu)
  · intro p hp
    rcases List.mem_append.mp hp with h1 | h1
    · exact h.tedges_lt p h1
    · rw [List.mem_singleton] at h1
      rw [h1]
      exact h.tids_lt t hmem
  · intro tid
    rw [tcount_snoc]
    by_cases he : t.tid = tid
    · subst he
      rw [h.tids_noedge t hmem, if_pos rfl]
    · rw [if_neg he]
      simpa using h.tc_le tid
  · intro tid htid
    rw [tcount_snoc]
    by_cases he : t.tid = tid
    · subst he
      left
      rw [h.tids_noedge t hmem, if_pos rfl]
    · rw [if_neg he]
      rcases h.tc_complete tid htid with h1 | h1
      · left
        rw [h1]
      · right
        rw [hq, List.map_cons] at h1
        rcases List.mem_cons.mp h1 with h2 | h2
        · exact absurd h2.symm he
        · exact h2
  · intro p hp s' hs'
    rcases List.mem_append.mp hp with h1 | h1
    · exact h.aborted_src p h1 s' hs'
    · rw [List.mem_singleton] at h1
      rw [h1] at hs'
      exact absurd hs' (by simp)
  · intro hf
    rw [h.shut_outbound hf] at hq
    exact absurd hq (by simp)
  · intro _
    exact h.wqueue (by rw [hq]; simp)

theorem inv_sendLoop {st : ConnState} (h : Inv st) (outs : List SendOutcome) :
    Inv (Connection.sendLoop st outs) := by
  induction outs generalizing st with
  | nil =>
    cases hq : st.outbound with
    | nil =>
      have hred : Connection.sendLoop st [] = { st with writeActive := false } := by
        simp [Connection.sendLoop, hq]
      rw [hred]
      exact inv_stop_write h hq
    | cons t rest =>
      have hred : Connection.sendLoop st [] = st := by
        simp [Connection.sendLoop, hq]
      rw [hred]
      exact h
  | cons o outs ih =>
    cases hq : st.outbound with
    | nil =>
      have hred : Connection.sendLoop st (o :: outs) = { st with writeActive := false } := by
        simp [Connection.sendLoop, hq]
      rw [hred]
      exact inv_stop_write h hq
    | cons t rest =>
      cases o with
      | sendError s =>
        have hred : Connection.sendLoop st (SendOutcome.sendError s :: outs)
            = Connection.Shutdown st s := by
          simp [Connection.sendLoop, hq, destroyConnection]
        rw [hred]
        exact inv_Shutdown h s
      | sendPartial =>
        have hred : Connection.sendLoop st (SendOutcome.sendPartial :: outs) = st := by
          simp [Connection.sendLoop, hq]
        rw [hred]
        exact h
      | sendComplete =>
        have hred : Connection.sendLoop st (SendOutcome.sendComplete :: outs)
            = Connection.sendLoop
                (callTransferFinished
                  { st with
                    outbound := rest
                    tedges := st.tedges ++ [(t.tid, TEdge.finishedE)] } t.callIdx)
                outs := by
          conv_lhs => rw [Connection.sendLoop]
          rw [hq]
        rw [hred]
        apply ih
        apply inv_callTransferFinished (inv_popComplete h t rest hq)
        exact h.tcall_lt t (by rw [hq]; exact List.mem_cons_self _ _)

theorem inv_WriteHandler {st : ConnState} (h : Inv st) (outs : List SendOutcome) :
    Inv (Connection.WriteHandler st outs) := by
  cases hq : st.outbound with
  | nil =>
    have hred : Connection.WriteHandler st outs
        = { st with warnings := st.warnings + 1, writeActive := false } := by
      simp [Connection.WriteHandler, hq]
    rw [hred]
    exact inv_warn_stop h hq
  | cons t rest =>
    have hred : Connection.WriteHandler st outs = Connection.sendLoop st outs := by
      rw [Connection.WriteHandler, hq]
    rw [hred]
    exact inv_sendLoop h outs

theorem inv_negotiationDone {st : ConnState} (h : Inv st) :
    Inv (Connection.EpollRegister (Connection.MarkNegotiationComplete st)) := by
  unfold Connection.EpollRegister Connection.MarkNegotiationComplete
  refine
    { ids_range := h.ids_range
      next_pos := h.next_pos
      keys_lt := h.keys_lt
      keys_nodup := h.keys_nodup
      live_lt := h.live_lt
      live_noterm := h.live_noterm
      live_nodup := h.live_nodup
      edges_lt := h.edges_lt
      term_le := h.term_le
      term_complete := h.term_complete
      failed_src := h.failed_src
      tids_nodup := h.tids_nodup
      tids_lt := h.tids_lt
      tids_noedge := h.tids_noedge
      tcall_lt := h.tcall_lt
      tedges_lt := h.tedges_lt
      tc_le := h.tc_le
      tc_complete := h.tc_complete
      aborted_src := h.aborted_src
      shut_mem := fun hf => h.shut_mem hf
      shut_awaiting := fun hf => h.shut_awaiting hf
      shut_outbound := fun hf => h.shut_outbound hf
      wqueue := fun _ => Or.inl (by simp) }

theorem inv_QueueOutboundCall {st : ConnState} (h : Inv st) (ser : Status) (ht : Bool) :
    Inv (Connection.QueueOutboundCall st ser ht) := by
  cases hs : st.shutdownStatus.isOk with
  | false =>
    have hred : Connection.QueueOutboundCall st ser ht
        = { st with
            numCalls := st.numCalls + 1
            edges := st.edges ++ [(st.numCalls, CallEdge.failedE st.shutdownStatus)] } := by
      simp [Connection.QueueOutboundCall, hs]
    rw [hred]
    have hfresh : termCount st.edges st.numCalls = 0 :=
      termCount_eq_zero _ _ (fun p hp => Nat.ne_of_lt (h.edges_lt p hp))
    refine
      { ids_range := h.ids_range
        next_pos := h.next_pos
        keys_lt := h.keys_lt
        keys_nodup := h.keys_nodup
        live_lt := fun p hp i hc => Nat.lt_succ_of_lt (h.live_lt p hp i hc)
        live_noterm := fun p hp =>
          absurd (h.shut_awaiting hs ▸ hp) (List.not_mem_nil p)
        live_nodup := h.live_nodup
        edges_lt := ?_
        term_le := ?_
        term_complete := ?_
        failed_src := ?_
        tids_nodup := h.tids_nodup
        tids_lt := h.tids_lt
        tids_noedge := h.tids_noedge
        tcall_lt := fun t htm => Nat.lt_succ_of_lt (h.tcall_lt t htm)
        tedges_lt := h.tedges_lt
        tc_le := h.tc_le
        tc_complete := h.tc_complete
        aborted_src := h.aborted_src
        shut_mem := fun hf => h.shut_mem hf
        shut_awaiting := fun hf => h.shut_awaiting hf
        shut_outbound := fun hf => h.shut_outbound hf
        wqueue := fun hq => h.wqueue hq }
    · intro p hp
      rcases List.mem_append.mp hp with h1 | h1
      · exact Nat.lt_succ_of_lt (h.edges_lt p h1)
      · rw [List.mem_singleton] at h1
        rw [h1]
        exact Nat.lt_succ_self _
    · intro j
      rw [termCount_snoc_term _ _ _ _ (by rfl)]
      by_cases hj : st.numCalls = j
      · subst hj
        rw [hfresh, if_pos rfl]
      · rw [if_neg hj]
        simpa using h.term_le j
    · intro j hj
      rw [termCount_snoc_term _ _ _ _ (by rfl)]
      rcases Nat.lt_succ_iff_lt_or_eq.mp hj with h1 | h1
      · rcases h.term_complete j h1 with h2 | h2
        · left
          rw [if_neg (Nat.ne_of_lt h1).symm, h2]
        · right
          exact h2
      · subst h1
        left
        rw [hfresh, if_pos rfl]
    · intro p hp s' hs'
      rcases List.mem_append.mp hp with h1 | h1
      · exact h.failed_src p h1 s' hs'
      · rw [List.mem_singleton] at h1
        rw [h1] at hs'
        simp only [CallEdge.failedE.injEq] at hs'
        rw [← hs']
        exact Or.inl (h.shut_mem hs)
  | true =>
    cases hser : ser.isOk with
    | false =>
      have hred : Connection.QueueOutboundCall st ser ht
          = { st with
              numCalls := st.numCalls + 1
              nextCallId := st.nextCallId + 1
              assignedIds := st.assignedIds ++ [st.nextCallId]
              edges := st.edges ++ [(st.numCalls, CallEdge.failedE ser)]
              serializeFailures := st.serializeFailures ++ [ser] } := by
        simp [Connection.QueueOutboundCall, hs, hser]
      rw [hred]
      have hfresh : termCount st.edges st.numCalls = 0 :=
        termCount_eq_zero _ _ (fun p hp => Nat.ne_of_lt (h.edges_lt p hp))
      refine
        { ids_range := ?_
          next_pos := Nat.le_succ_of_le h.next_pos
          keys_lt := fun p hp => Nat.lt_succ_of_lt (h.keys_lt p hp)
          keys_nodup := h.keys_nodup
          live_lt := fun p hp i hc => Nat.lt_succ_of_lt (h.live_lt p hp i hc)
          live_noterm := ?_
          live_nodup := h.live_nodup
          edges_lt := ?_
          term_le := ?_
          term_complete := ?_
          failed_src := ?_
          tids_nodup := h.tids_nodup
          tids_lt := h.tids_lt
          tids_noedge := h.tids_noedge
          tcall_lt := fun t htm => Nat.lt_succ_of_lt (h.tcall_lt t htm)
          tedges_lt := h.tedges_lt
          tc_le := h.tc_le
          tc_complete := h.tc_complete
          aborted_src := h.aborted_src
          shut_mem := fun hf => absurd (hs.symm.trans hf) (by decide)
          shut_awaiting := fun hf => absurd (hs.symm.trans hf) (by decide)
          shut_outbound := fun hf => absurd (hs.symm.trans hf) (by decide)
          wqueue := fun hq => h.wqueue hq }
      · obtain ⟨k, hk⟩ : ∃ k, st.nextCallId = k + 1 :=
          ⟨st.nextCallId - 1, by have := h.next_pos; omega⟩
        rw [h.ids_range, hk]
        simp [List.range'_concat]
        omega
      · intro p hp j hcall
        have hjlt : j < st.numCalls := h.live_lt p hp j hcall
        rw [termCount_snoc_term _ _ _ _ (by rfl),
          if_neg (Nat.ne_of_lt hjlt).symm]
        simpa using h.live_noterm p hp j hcall
      · intro p hp
        rcases List.mem_append.mp hp with h1 | h1
        · exact Nat.lt_succ_of_lt (h.edges_lt p h1)
        · rw [List.mem_singleton] at h1
          rw [h1]
          exact Nat.lt_succ_self _
      · intro j
        rw [termCount_snoc_term _ _ _ _ (by rfl)]
        by_cases hj : st.numCalls = j
        · subst hj
          rw [hfresh, if_pos rfl]
        · rw [if_neg hj]
          simpa using h.term_le j
      · intro j hj
        rw [termCount_snoc_term _ _ _ _ (by rfl)]
        rcases Nat.lt_succ_iff_lt_or_eq.mp hj with h1 | h1
        · rcases h.term_complete j h1 with h2 | h2
          · left
            rw [if_neg (Nat.ne_of_lt h1).symm, h2]
          · right
            exact h2
        · subst h1
          left
          rw [hfresh, if_pos rfl]
      · intro p hp s' hs'
        rcases List.mem_append.mp hp with h1 | h1
        · rcases h.failed_src p h1 s' hs' with h2 | h2
          · exact Or.inl h2
          · exact Or.inr (List.mem_append_left _ h2)
        · rw [List.mem_singleton] at h1
          rw [h1] at hs'
          simp only [CallEdge.failedE.injEq] at hs'
          rw [← hs']
          exact Or.inr (List.mem_append_right _ (List.mem_singleton.mpr rfl))
    | true =>
      have hkeys : ∀ p ∈ st.awaiting, p.1 ≠ st.nextCallId :=
        fun p hp => Nat.ne_of_lt (h.keys_lt p hp)
      have hset := setA_not_mem st.awaiting st.nextCallId
        { call := some st.numCalls, timerArmed := ht } hkeys
      have hred : Connection.QueueOutboundCall st ser ht
          = Connection.QueueOutbound
              { st with
                numCalls := st.numCalls + 1
                nextCallId := st.nextCallId + 1
                assignedIds := st.assignedIds ++ [st.nextCallId]
                edges := st.edges ++ [(st.numCalls, CallEdge.queuedE)]
                awaiting := st.awaiting ++
                  [(st.nextCallId, { call := some st.numCalls, timerArmed := ht })]
                numTransfers := st.numTransfers + 1 }
              { tid := st.numTransfers, callIdx := st.numCalls } := by
        simp [Connection.QueueOutboundCall, hs, hser, hset]
      rw [hred]
      have hfresh : termCount st.edges st.numCalls = 0 :=
        termCount_eq_zero _ _ (fun p hp => Nat.ne_of_lt (h.edges_lt p hp))
      have hmid : Inv { st with
          numCalls := st.numCalls + 1
          nextCallId := st.nextCallId + 1
          assignedIds := st.assignedIds ++ [st.nextCallId]
          edges := st.edges ++ [(st.numCalls, CallEdge.queuedE)]
          awaiting := st.awaiting ++
            [(st.nextCallId, { call := some st.numCalls, timerArmed := ht })] } := by
        refine
          { ids_range := ?_
            next_pos := Nat.le_succ_of_le h.next_pos
            keys_lt := ?_
            keys_nodup := ?_
            live_lt := ?_
            live_noterm := ?_
            live_nodup := ?_
            edges_lt := ?_
            term_le := ?_
            term_complete := ?_
            failed_src := ?_
            tids_nodup := h.tids_nodup
            tids_lt := h.tids_lt
            tids_noedge := h.tids_noedge
            tcall_lt := fun t htm => Nat.lt_succ_of_lt (h.tcall_lt t htm)
            tedges_lt := h.tedges_lt
            tc_le := h.tc_le
            tc_complete := h.tc_complete
            aborted_src := h.aborted_src
            shut_mem := fun hf => absurd (hs.symm.trans hf) (by decide)
            shut_awaiting := fun hf => absurd (hs.symm.trans hf) (by decide)
            shut_outbound := fun hf => absurd (hs.symm.trans hf) (by decide)
            wqueue := fun hq => h.wqueue hq }
        · obtain ⟨k, hk⟩ : ∃ k, st.nextCallId = k + 1 :=
            ⟨st.nextCallId - 1, by have := h.next_pos; omega⟩
          rw [h.ids_range, hk]
          simp [List.range'_concat]
          omega
        · intro p hp
          rcases List.mem_append.mp hp with h1 | h1
          · exact Nat.lt_succ_of_lt (h.keys_lt p h1)
          · rw [List.mem_singleton] at h1
            rw [h1]
            exact Nat.lt_succ_self _
        · simp only [List.map_append, List.map_cons, List.map_nil]
          exact nodup_snoc_of_lt _ _ h.keys_nodup (fun x hx => by
            obtain ⟨p, hp, hpe⟩ := List.mem_map.mp hx
            exact hpe ▸ h.keys_lt p hp)
        · intro p hp i hc
          rcases List.mem_append.mp hp with h1 | h1
          · exact Nat.lt_succ_of_lt (h.live_lt p h1 i hc)
          · rw [List.mem_singleton] at h1
            rw [h1] at hc
            simp only [Option.some.injEq] at hc
            rw [← hc]
            exact Nat.lt_succ_self _
        · intro p hp i hc
          rw [termCount_snoc_nonterm _ _ _ _ (by rfl)]
          rcases List.mem_append.mp hp with h1 | h1
          · exact h.live_noterm p h1 i hc
          · rw [List.mem_singleton] at h1
            rw [h1] at hc
            simp only [Option.some.injEq] at hc
            rw [← hc]
            exact hfresh
        · rw [List.filterMap_append]
          simp only [List.filterMap_cons, List.filterMap_nil]
          exact nodup_snoc_of_lt _ _ h.live_nodup (fun x hx => by
            obtain ⟨p, hp, hpc⟩ := List.mem_filterMap.mp hx
            exact h.live_lt p hp x hpc)
        · intro p hp
          rcases List.mem_append.mp hp with h1 | h1
          · exact Nat.lt_succ_of_lt (h.edges_lt p h1)
          · rw [List.mem_singleton] at h1
            rw [h1]
            exact Nat.lt_succ_self _
        · intro j
          rw [termCount_snoc_nonterm _ _ _ _ (by rfl)]
          exact h.term_le j
        · intro j hj
          rw [termCount_snoc_nonterm _ _ _ _ (by rfl)]
          rw [List.filterMap_append]
          simp only [List.filterMap_cons, List.filterMap_nil]
          rcases Nat.lt_succ_iff_lt_or_eq.mp hj with h1 | h1
          · rcases h.term_complete j h1 with h2 | h2
            · exact Or.inl h2
            · exact Or.inr (List.mem_append_left _ h2)
          · subst h1
            exact Or.inr (List.mem_append_right _ (by simp))
        · intro p hp s' hs'
          rcases List.mem_append.mp hp with h1 | h1
          · exact h.failed_src p h1 s' hs'
          · rw [List.mem_singleton] at h1
            rw [h1] at hs'
            exact absurd hs' (by simp)
      exact inv_QueueOutbound_fresh hmid st.numCalls (Nat.lt_succ_self _)

theorem inv_step {st : ConnState} {e : Event} (h : Inv st) (he : enabled st e = true) :
    Inv (step st e) := by
  cases e with
  | queueOutboundCall ser ht => exact inv_QueueOutboundCall h ser ht
  | timerFire cid => exact inv_HandleOutboundCallTimeout h cid
  | callResponse cid => exact inv_HandleCallResponse h cid
  | readEvError => exact inv_Shutdown h _
  | recvError s quiet =>
    cases quiet with
    | true => exact inv_Shutdown h s
    | false => exact inv_Shutdown (inv_warnings h _) s
  | writeReady outs => exact inv_WriteHandler h outs
  | writeEvError => exact inv_Shutdown h _
  | negotiationDone => exact inv_negotiationDone h
  | reactorShutdown s => exact inv_Shutdown h s

theorem inv_initConn : Inv initConn := by
  refine
    { ids_range := rfl
      next_pos := le_refl 1
      keys_lt := ?_
      keys_nodup := List.nodup_nil
      live_lt := ?_
      live_noterm := ?_
      live_nodup := List.nodup_nil
      edges_lt := ?_
      term_le := fun i => by simp [initConn, termCount]
      term_complete := fun i hi => absurd hi (Nat.not_lt_zero i)
      failed_src := ?_
      tids_nodup := List.nodup_nil
      tids_lt := ?_
      tids_noedge := ?_
      tcall_lt := ?_
      tedges_lt := ?_
      tc_le := fun tid => by simp [initConn, tcount]
      tc_complete := fun tid htid => absurd htid (Nat.not_lt_zero tid)
      aborted_src := ?_
      shut_mem := fun hf => absurd hf (by decide)
      shut_awaiting := fun _ => rfl
      shut_outbound := fun _ => rfl
      wqueue := fun hq => absurd rfl hq } <;>
    intro p hp <;> exact absurd hp (List.not_mem_nil p)

theorem inv_runFrom {st : ConnState} (h : Inv st) (tr : List Event)
    (hl : legalFrom st tr = true) : Inv (runFrom st tr) := by
  induction tr generalizing st with
  | nil => exact h
  | cons e es ih =>
    rw [legalFrom, Bool.and_eq_true] at hl
    exact ih (inv_step h hl.1) hl.2

/-! ### Claim theorems: shutdown, timeout and response handling -/

/-- C2: after `Shutdown(s)` the pending-call map `awaiting_response_` is
empty, the outbound transfer queue is empty, the epoll-registered flag
is false, and every outbound call that was in the pending map with a
live call handle has been failed with status `s`. -/
theorem shutdown_completeness (st : ConnState) (s : Status) :
    (Connection.Shutdown st s).awaiting = [] ∧
    (Connection.Shutdown st s).outbound = [] ∧
    (Connection.Shutdown st s).isEpollRegistered = false ∧
    ∀ p ∈ st.awaiting, ∀ i, p.2.call = some i →
      (i, CallEdge.failedE s) ∈ (Connection.Shutdown st s).edges := by
  refine ⟨rfl, rfl, rfl, ?_⟩
  intro p hp i hi
  simp only [Connection.Shutdown, List.mem_append]
  right
  exact List.mem_filterMap.mpr ⟨p, hp, by simp [hi]⟩

theorem shutdown_completeness_witness :
    (Connection.Shutdown
        { initConn with awaiting := [(1, { call := some 0, timerArmed := true })] }
        (Status.NetworkError "remote closed")).awaiting = [] ∧
    (0, CallEdge.failedE (Status.NetworkError "remote closed")) ∈
      (Connection.Shutdown
        { initConn with awaiting := [(1, { call := some 0, timerArmed := true })] }
        (Status.NetworkError "remote closed")).edges := by
  have h := shutdown_completeness
    { initConn with awaiting := [(1, { call := some 0, timerArmed := true })] }
    (Status.NetworkError "remote closed")
  exact ⟨h.1, h.2.2.2 (1, { call := some 0, timerArmed := true }) (by decide) 0 rfl⟩

/-- C4: when the timeout timer of a pending entry fires,
`HandleOutboundCallTimeout` marks the call timed out and clears the call
handle on the entry but leaves the entry in the map; a response arriving
later for that call id removes the entry, delivers nothing to the call,
and logs nothing at warning level. -/
theorem timeout_tombstone_late_response :
    (∀ st cid car i, lookupA st.awaiting cid = some car → car.call = some i →
      lookupA (Connection.HandleOutboundCallTimeout st cid).awaiting cid
          = some { call := none, timerArmed := false } ∧
        (Connection.HandleOutboundCallTimeout st cid).edges
          = st.edges ++ [(i, CallEdge.timedOutE)] ∧
        (Connection.HandleOutboundCallTimeout st cid).warnings = st.warnings) ∧
    (∀ st cid, lookupA st.awaiting cid = some { call := none, timerArmed := false } →
      (st.awaiting.map Prod.fst).Nodup →
      lookupA (Connection.HandleCallResponse st cid).awaiting cid = none ∧
        (Connection.HandleCallResponse st cid).edges = st.edges ∧
        (Connection.HandleCallResponse st cid).warnings = st.warnings) := by
  constructor
  · intro st cid car i hl hc
    simp only [Connection.HandleOutboundCallTimeout, hl, hc]
    exact ⟨lookupA_setA_self st.awaiting cid _, by trivial, by trivial⟩
  · intro st cid hl hn
    simp only [Connection.HandleCallResponse, hl]
    exact ⟨lookupA_eraseA_self st.awaiting cid hn, by trivial, by trivial⟩

theorem timeout_tombstone_late_response_witness :
    (lookupA (Connection.HandleOutboundCallTimeout
        { initConn with awaiting := [(1, { call := some 0, timerArmed := true })] }
        1).awaiting 1 = some { call := none, timerArmed := false } ∧
      (Connection.HandleOutboundCallTimeout
        { initConn with awaiting := [(1, { call := some 0, timerArmed := true })] }
        1).edges = initConn.edges ++ [(0, CallEdge.timedOutE)] ∧
      (Connection.HandleOutboundCallTimeout
        { initConn with awaiting := [(1, { call := some 0, timerArmed := true })] }
        1).warnings = initConn.warnings) ∧
    (lookupA (Connection.HandleCallResponse
        { initConn with awaiting := [(1, { call := none, timerArmed := false })] }
        1).awaiting 1 = none ∧
      (Connection.HandleCallResponse
        { initConn with awaiting := [(1, { call := none, timerArmed := false })] }
        1).edges = initConn.edges ∧
      (Connection.HandleCallResponse
        { initConn with awaiting := [(1, { call := none, timerArmed := false })] }
        1).warnings = initConn.warnings) :=
  ⟨timeout_tombstone_late_response.1
      { initConn with awaiting := [(1, { call := some 0, timerArmed := true })] }
      1 { call := some 0, timerArmed := true } 0 (by decide) rfl,
    timeout_tombstone_late_response.2
      { initConn with awaiting := [(1, { call := none, timerArmed := false })] }
      1 (by decide) (by decide)⟩

/-- C10: a successfully parsed response whose call id has no entry in
the pending-call map is ignored: no call state changes, the connection
is not torn down, and a warning is logged. -/
theorem unknown_response_ignored (st : ConnState) (cid : Nat)
    (h : lookupA st.awaiting cid = none) :
    (Connection.HandleCallResponse st cid).edges = st.edges ∧
    (Connection.HandleCallResponse st cid).awaiting = st.awaiting ∧
    (Connection.HandleCallResponse st cid).shutdownStatus = st.shutdownStatus ∧
    (Connection.HandleCallResponse st cid).warnings = st.warnings + 1 := by
  simp [Connection.HandleCallResponse, h]

theorem unknown_response_ignored_witness :
    (Connection.HandleCallResponse initConn 7).edges = initConn.edges ∧
    (Connection.HandleCallResponse initConn 7).awaiting = initConn.awaiting ∧
    (Connection.HandleCallResponse initConn 7).shutdownStatus = initConn.shutdownStatus ∧
    (Connection.HandleCallResponse initConn 7).warnings = initConn.warnings + 1 :=
  unknown_response_ignored initConn 7 (by decide)

/-! ### Claim theorems: server-side incoming-call handling -/

/-- C5: on a YB server connection, a successfully parsed incoming call
whose call id is already in `calls_being_handled_` is not dispatched and
the connection is torn down with a RuntimeError about a duplicate call
id; a first-seen call id is inserted into the map and dispatched. -/
theorem yb_duplicate_call_id (handled : List Nat) (cid : Nat) :
    (cid ∈ handled →
      (YBConnection.HandleIncomingCall handled (Except.ok cid)).2.dispatched = none ∧
      (YBConnection.HandleIncomingCall handled (Except.ok cid)).2.destroyed
        = some (Status.RuntimeError "Received duplicate call id" (toString cid)) ∧
      (YBConnection.HandleIncomingCall handled (Except.ok cid)).1 = handled) ∧
    (cid ∉ handled →
      (YBConnection.HandleIncomingCall handled (Except.ok cid)).1 = handled ++ [cid] ∧
      (YBConnection.HandleIncomingCall handled (Except.ok cid)).2.dispatched = some cid ∧
      (YBConnection.HandleIncomingCall handled (Except.ok cid)).2.destroyed = none) := by
  constructor
  · intro h
    simp [YBConnection.HandleIncomingCall, h]
  · intro h
    simp [YBConnection.HandleIncomingCall, h]

theorem yb_duplicate_call_id_witness :
    (YBConnection.HandleIncomingCall [42] (Except.ok 42)).2.dispatched = none ∧
    (YBConnection.HandleIncomingCall [] (Except.ok 42)).2.dispatched = some 42 :=
  ⟨((yb_duplicate_call_id [42] 42).1 (by decide)).1,
    ((yb_duplicate_call_id [] 42).2 (by decide)).2.1⟩

/-- C6 counterexample: on a CQL server connection a frame that fails to
parse does not tear the connection down — `CQLConnection`'s handler only
logs a warning and returns, so the connection stays open, refuting the
claim that every protocol tears down on a parse failure. -/
theorem cql_parse_failure_no_teardown :
    (CQLConnection.HandleIncomingCall
        (Except.error (Status.Corruption "bad frame"))).destroyed = none ∧
    (CQLConnection.HandleIncomingCall
        (Except.error (Status.Corruption "bad frame"))).dispatched = none ∧
    (CQLConnection.HandleIncomingCall
        (Except.error (Status.Corruption "bad frame"))).warned = true := by
  decide

/-- C6 (amended): a frame that fails to parse in the server's
`HandleIncomingCall` triggers tear-down with the parse status on the YB
and Redis protocols; on CQL the connection is not torn down — the
handler logs a warning and leaves the connection open. -/
theorem parse_failure_teardown (s : Status) :
    (∀ handled,
      (YBConnection.HandleIncomingCall handled (Except.error s)).2.destroyed = some s ∧
      (YBConnection.HandleIncomingCall handled (Except.error s)).2.dispatched = none) ∧
    (∀ rst : RedisState,
      (RedisConnection.HandleIncomingCall rst (Except.error s)).2.destroyed = some s ∧
      (RedisConnection.HandleIncomingCall rst (Except.error s)).2.dispatched = none) ∧
    ((CQLConnection.HandleIncomingCall (Except.error s)).destroyed = none ∧
      (CQLConnection.HandleIncomingCall (Except.error s)).warned = true) := by
  refine ⟨fun handled => ⟨rfl, rfl⟩, fun rst => ⟨rfl, rfl⟩, rfl, rfl⟩

/-- C9: on a Redis server connection, a finished inbound transfer
handled while `processing_call_` is set is left parked with nothing
dispatched; otherwise the transfer is parsed, `processing_call_` is set,
the call is handed off, and the transfer's excess data seeds the next
inbound transfer; `FinishedHandlingACall` clears `processing_call_` and,
if a finished transfer is parked, re-drives `HandleFinishedTransfer`. -/
theorem redis_single_in_flight :
    (∀ st : RedisState, st.processingCall = true →
      RedisConnection.HandleFinishedTransfer st
        = (st, { destroyed := none, dispatched := none, warned := false })) ∧
    (∀ st : RedisState, ∀ t cid, st.processingCall = false → st.inbound = some t →
      t.parse = Except.ok cid →
      RedisConnection.HandleFinishedTransfer st
        = ({ processingCall := true, inbound := t.excess },
            { destroyed := none, dispatched := some cid, warned := false })) ∧
    (∀ st : RedisState, ∀ t, st.inbound = some t → t.finished = true →
      RedisConnection.FinishedHandlingACall st
        = RedisConnection.HandleFinishedTransfer { st with processingCall := false }) := by
  refine ⟨?_, ?_, ?_⟩
  · intro st h
    simp [RedisConnection.HandleFinishedTransfer, h]
  · intro st t cid hp hi hparse
    simp [RedisConnection.HandleFinishedTransfer, hp, hi,
      RedisConnection.HandleIncomingCall, hparse]
  · intro st t hi hf
    simp [RedisConnection.FinishedHandlingACall, hi, hf]

theorem redis_single_in_flight_witness :
    RedisConnection.HandleFinishedTransfer { processingCall := true, inbound := none }
      = ({ processingCall := true, inbound := none },
          { destroyed := none, dispatched := none, warned := false }) ∧
    RedisConnection.HandleFinishedTransfer
        { processingCall := false,
          inbound := some (RTransfer.mk true (Except.ok 5) none) }
      = ({ processingCall := true, inbound := none },
          { destroyed := none, dispatched := some 5, warned := false }) :=
  ⟨redis_single_in_flight.1 { processingCall := true, inbound := none } rfl,
    redis_single_in_flight.2.1
      { processingCall := false,
        inbound := some (RTransfer.mk true (Except.ok 5) none) }
      (RTransfer.mk true (Except.ok 5) none) 5 rfl rfl rfl⟩

/-! ### Claim theorems: trace-level properties of the client connection -/

/-- C1: on any legal run of the connection, the call ids assigned by
`QueueOutboundCall` to the invocations that are not rejected for
shutdown are exactly `1, 2, ..., N` in invocation order (the ghost log
`assignedIds` records each `set_call_id` in order), and no call id is
ever assigned twice. -/
theorem call_ids_sequential (tr : List Event)
    (hl : legalFrom initConn tr = true) :
    (runFrom initConn tr).assignedIds
        = List.range' 1 (runFrom initConn tr).assignedIds.length ∧
    (runFrom initConn tr).assignedIds.Nodup := by
  have hinv := inv_runFrom inv_initConn tr hl
  have h1 := hinv.ids_range
  constructor
  · rw [h1, List.length_range']
  · rw [h1]
    exact List.nodup_range' _ _

theorem call_ids_sequential_witness :
    legalFrom initConn sampleTrace = true ∧
    ((runFrom initConn sampleTrace).assignedIds
        = List.range' 1 (runFrom initConn sampleTrace).assignedIds.length ∧
      (runFrom initConn sampleTrace).assignedIds.Nodup) :=
  ⟨by decide, call_ids_sequential sampleTrace (by decide)⟩

/-- C3 counterexample: on the legal one-event trace in which request
serialization fails with a Corruption status, `QueueOutboundCall` fails
the call with that serialization status; the status is not a
NetworkError and no shutdown was ever initiated (the shutdown-status log
is empty), refuting the claim that a failed call always carries a
NetworkError or a shutdown status. -/
theorem call_failed_status_counterexample :
    legalFrom initConn
        [Event.queueOutboundCall (Status.Corruption "bad payload") false] = true ∧
    (0, CallEdge.failedE (Status.Corruption "bad payload")) ∈
      (runFrom initConn
        [Event.queueOutboundCall (Status.Corruption "bad payload") false]).edges ∧
    (∀ m, Status.Corruption "bad payload" ≠ Status.NetworkError m) ∧
    (runFrom initConn
        [Event.queueOutboundCall (Status.Corruption "bad payload") false]).shutdownStatuses
      = [] :=
  ⟨by decide, by decide, fun m h => Status.noConfusion h, by decide⟩

/-- C3 (amended): on any legal run, every outbound call passed to
`QueueOutboundCall` fires at most one terminal edge (Response, TimedOut
or Failed); once the connection has shut down, every such call has fired
exactly one terminal edge; and every Failed edge carries a status with
which tear-down was initiated or the status of a failed request
serialization. -/
theorem call_exactly_once_terminal (tr : List Event)
    (hl : legalFrom initConn tr = true) :
    (∀ i, termCount (runFrom initConn tr).edges i ≤ 1) ∧
    ((runFrom initConn tr).shutdownStatus.isOk = false →
      ∀ i < (runFrom initConn tr).numCalls,
        termCount (runFrom initConn tr).edges i = 1) ∧
    (∀ p ∈ (runFrom initConn tr).edges, ∀ s, p.2 = CallEdge.failedE s →
      s ∈ (runFrom initConn tr).shutdownStatuses ∨
        s ∈ (runFrom initConn tr).serializeFailures) := by
  have hinv := inv_runFrom inv_initConn tr hl
  refine ⟨hinv.term_le, ?_, hinv.failed_src⟩
  intro hshut i hi
  rcases hinv.term_complete i hi with h1 | h1
  · exact h1
  · rw [hinv.shut_awaiting hshut] at h1
    exact absurd h1 (by simp)

theorem call_exactly_once_terminal_witness :
    legalFrom initConn sampleTrace = true ∧
    ((∀ i, termCount (runFrom initConn sampleTrace).edges i ≤ 1) ∧
      ((runFrom initConn sampleTrace).shutdownStatus.isOk = false →
        ∀ i < (runFrom initConn sampleTrace).numCalls,
          termCount (runFrom initConn sampleTrace).edges i = 1) ∧
      (∀ p ∈ (runFrom initConn sampleTrace).edges, ∀ s, p.2 = CallEdge.failedE s →
        s ∈ (runFrom initConn sampleTrace).shutdownStatuses ∨
          s ∈ (runFrom initConn sampleTrace).serializeFailures)) :=
  ⟨by decide, call_exactly_once_terminal sampleTrace (by decide)⟩

/-- C7: on any legal run, every enqueued outbound transfer fires at most
one of its two callback edges; once the connection has shut down, every
enqueued transfer has fired exactly one; every aborted edge carries a
status with which tear-down was initiated; and a transfer still queued
when `Shutdown(s)` runs has its aborted callback fired exactly once by
the shutdown. -/
theorem transfer_exactly_once_callback (tr : List Event)
    (hl : legalFrom initConn tr = true) :
    (∀ tid, tcount (runFrom initConn tr).tedges tid ≤ 1) ∧
    ((runFrom initConn tr).shutdownStatus.isOk = false →
      ∀ tid < (runFrom initConn tr).numTransfers,
        tcount (runFrom initConn tr).tedges tid = 1) ∧
    (∀ p ∈ (runFrom initConn tr).tedges, ∀ s, p.2 = TEdge.abortedE s →
      s ∈ (runFrom initConn tr).shutdownStatuses) ∧
    (∀ s : Status, ∀ t ∈ (runFrom initConn tr).outbound,
      tcount (Connection.Shutdown (runFrom initConn tr) s).tedges t.tid = 1) := by
  have hinv := inv_runFrom inv_initConn tr hl
  refine ⟨hinv.tc_le, ?_, hinv.aborted_src, ?_⟩
  · intro hshut tid htid
    rcases hinv.tc_complete tid htid with h1 | h1
    · exact h1
    · rw [hinv.shut_outbound hshut] at h1
      exact absurd h1 (by simp)
  · intro s t htm
    simp only [Connection.Shutdown]
    rw [tcount_append, tcount_abortbatch, hinv.tids_noedge t htm,
      List.count_eq_one_of_mem hinv.tids_nodup (List.mem_map_of_mem _ htm)]

theorem transfer_exactly_once_callback_witness :
    legalFrom initConn sampleTrace = true ∧
    ((∀ tid, tcount (runFrom initConn sampleTrace).tedges tid ≤ 1) ∧
      ((runFrom initConn sampleTrace).shutdownStatus.isOk = false →
        ∀ tid < (runFrom initConn sampleTrace).numTransfers,
          tcount (runFrom initConn sampleTrace).tedges tid = 1) ∧
      (∀ p ∈ (runFrom initConn sampleTrace).tedges, ∀ s, p.2 = TEdge.abortedE s →
        s ∈ (runFrom initConn sampleTrace).shutdownStatuses) ∧
      (∀ s : Status, ∀ t ∈ (runFrom initConn sampleTrace).outbound,
        tcount (Connection.Shutdown (runFrom initConn sampleTrace) s).tedges t.tid
          = 1)) :=
  ⟨by decide, transfer_exactly_once_callback sampleTrace (by decide)⟩

theorem sendLoop_drained {st : ConnState} (outs : List SendOutcome)
    (hq : (Connection.sendLoop st outs).outbound = []) :
    (Connection.sendLoop st outs).writeActive = false := by
  induction outs generalizing st with
  | nil =>
    cases hqs : st.outbound with
    | nil =>
      have hred : Connection.sendLoop st [] = { st with writeActive := false } := by
        simp [Connection.sendLoop, hqs]
      rw [hred]
    | cons t rest =>
      have hred : Connection.sendLoop st [] = st := by
        simp [Connection.sendLoop, hqs]
      rw [hred] at hq
      rw [hqs] at hq
      exact absurd hq (by simp)
  | cons o outs ih =>
    cases hqs : st.outbound with
    | nil =>
      have hred : Connection.sendLoop st (o :: outs) = { st with writeActive := false } := by
        simp [Connection.sendLoop, hqs]
      rw [hred]
    | cons t rest =>
      cases o with
      | sendError s =>
        have hred : Connection.sendLoop st (SendOutcome.sendError s :: outs)
            = Connection.Shutdown st s := by
          simp [Connection.sendLoop, hqs, destroyConnection]
        rw [hred]
        rfl
      | sendPartial =>
        have hred : Connection.sendLoop st (SendOutcome.sendPartial :: outs) = st := by
          simp [Connection.sendLoop, hqs]
        rw [hred] at hq
        rw [hqs] at hq
        exact absurd hq (by simp)
      | sendComplete =>
        have hred : Connection.sendLoop st (SendOutcome.sendComplete :: outs)
            = Connection.sendLoop
                (callTransferFinished
                  { st with
                    outbound := rest
                    tedges := st.tedges ++ [(t.tid, TEdge.finishedE)] } t.callIdx)
                outs := by
          conv_lhs => rw [Connection.sendLoop]
          rw [hqs]
        rw [hred] at hq ⊢
        exact ih hq

/-- C8: on any legal run, a non-empty outbound transfer queue implies
the write watcher is active or negotiation is not yet complete;
`QueueOutbound` on a live connection with negotiation complete leaves
the write watcher active; and whenever `WriteHandler` ends with an empty
queue the write watcher is stopped. -/
theorem write_watcher_policy (tr : List Event)
    (hl : legalFrom initConn tr = true) :
    ((runFrom initConn tr).outbound ≠ [] →
      (runFrom initConn tr).writeActive = true ∨
      (runFrom initConn tr).negotiationComplete = false) ∧
    (∀ st : ConnState, ∀ t : OutTransfer, st.shutdownStatus.isOk = true →
      st.negotiationComplete = true →
      (Connection.QueueOutbound st t).writeActive = true) ∧
    (∀ st : ConnState, ∀ outs : List SendOutcome,
      (Connection.WriteHandler st outs).outbound = [] →
      (Connection.WriteHandler st outs).writeActive = false) := by
  have hinv := inv_runFrom inv_initConn tr hl
  refine ⟨hinv.wqueue, ?_, ?_⟩
  · intro st t hok hneg
    cases hw : st.writeActive with
    | true => simp [Connection.QueueOutbound, hok, hneg, hw]
    | false => simp [Connection.QueueOutbound, hok, hneg, hw]
  · intro st outs hq
    cases hqs : st.outbound with
    | nil =>
      have hred : Connection.WriteHandler st outs
          = { st with warnings := st.warnings + 1, writeActive := false } := by
        simp [Connection.WriteHandler, hqs]
      rw [hred]
    | cons t rest =>
      have hred : Connection.WriteHandler st outs = Connection.sendLoop st outs := by
        rw [Connection.WriteHandler, hqs]
      rw [hred] at hq ⊢
      exact sendLoop_drained outs hq

theorem write_watcher_policy_witness :
    legalFrom initConn sampleTrace = true ∧
    (((runFrom initConn sampleTrace).outbound ≠ [] →
        (runFrom initConn sampleTrace).writeActive = true ∨
        (runFrom initConn sampleTrace).negotiationComplete = false) ∧
      (∀ st : ConnState, ∀ t : OutTransfer, st.shutdownStatus.isOk = true →
        st.negotiationComplete = true →
        (Connection.QueueOutbound st t).writeActive = true) ∧
      (∀ st : ConnState, ∀ outs : List SendOutcome,
        (Connection.WriteHandler st outs).outbound = [] →
        (Connection.WriteHandler st outs).writeActive = false)) :=
  ⟨by decide, write_watcher_policy sampleTrace (by decide)⟩

end YbRpc
